import Mathlib

/-!
# visorchipset payload parser (`drivers/staging/unisys/visorchipset/parser.c`)

A shallow embedding of the payload parser and the properties proved about it.

Modelling conventions.

* A byte is a natural number; a buffer is a `List Nat`.
* `unsigned long` is 64 bits wide (the driver is built for x86_64 only).  The
  global counter and the cursor length `nscan` are `unsigned long` in the
  source, so their arithmetic is written with explicit wrap-around
  (`ulong_add`, `ulong_sub`, `ulong_dec`).
* A pointer into `ctx->data` is an offset into the buffer (`none` for `NULL`).
  Inside `parser_param_get` and `parser_string_get` the scanning pointer
  `pscan` is represented by the list of bytes from the pointee to the end of
  the buffer: `*pscan` is the head, `pscan++` is the tail, and a read at the
  end of the buffer leaves the allocation (result `outOfBounds`; C gives it no
  meaning).
* The `int` locals `i`, `value_length`, `orig_value_length` index bytes that
  have been read inside the buffer; no `kzalloc`ed buffer reaches `2^31` bytes,
  so these are natural numbers.  `namesize` is an `Int` because the source
  tests `namesize <= 0`.
* `kzalloc`, `kmalloc`, the physical-memory bound, the memory behind a local
  address and the memory-region transport are collaborators outside the file;
  they are parameters (`Env`, `kmalloc`).
-/

namespace Visorchipset

/-! ## Machine integers -/

/-- Number of values of an `unsigned long`. -/
def ULONG_MOD : Nat := 18446744073709551616

/-- Addition of two `unsigned long` values. -/
def ulong_add (a b : Nat) : Nat := (a + b) % ULONG_MOD

/-- Subtraction of two `unsigned long` values (`a -= b`). -/
def ulong_sub (a b : Nat) : Nat := if b ≤ a then a - b else a + ULONG_MOD - b

/-- Decrement of an `unsigned long` (`nscan--`): zero wraps to the largest value. -/
def ulong_dec (n : Nat) : Nat := if n = 0 then ULONG_MOD - 1 else n - 1

/-- Conversion of a size to `int` (32 bits, two's complement). -/
def to_int (n : Nat) : Int :=
  if n % 4294967296 < 2147483648 then ((n % 4294967296 : Nat) : Int)
  else ((n % 4294967296 : Nat) : Int) - 4294967296

/-- Conversion of an `int` to `size_t` (64 bits). -/
def to_size_t (i : Int) : Nat := (i % (ULONG_MOD : Int)).toNat

/-! ## Character classes (`<linux/ctype.h>`) -/

/-- Modelled from the spec: `isspace` of `<linux/ctype.h>`, a header outside
`parser.c`; the spec compares "by the ASCII whitespace class": space, tab, line
feed, vertical tab, form feed, carriage return. -/
def isspace (c : Nat) : Bool := c == 32 || (9 ≤ c && c ≤ 13)

/-- Modelled from the spec: `toupper` of `<linux/ctype.h>`, a header outside
`parser.c`; the spec folds names "to upper case", read as the ASCII letters
`a`..`z`. -/
def toupper (c : Nat) : Nat := if 97 ≤ c ∧ c ≤ 122 then c - 32 else c

/-! ## Data model -/

/-- The `MAX_CONTROLVM_PAYLOAD_BYTES` ceiling, `1024*128`. -/
def MAX_CONTROLVM_PAYLOAD_BYTES : Nat := 1024 * 128

/-- The `struct PARSER_CONTEXT_Tag`; `data` is the trailing `char data[0]` array,
that is the bytes allocated after the fixed fields. -/
structure PARSER_CONTEXT where
  allocbytes : Nat
  param_bytes : Nat
  curr : Option Nat
  bytes_remaining : Nat
  byte_stream : Bool
  data : List Nat
deriving DecidableEq, Repr

/-- The `sizeof(PARSER_CONTEXT)`: four 8-byte fields and a `BOOL`, padded to 40. -/
def sizeof_PARSER_CONTEXT : Nat := 40

/-- The fields of `ULTRA_CONTROLVM_PARAMETERS_HEADER` that the parser reads. -/
structure ULTRA_CONTROLVM_PARAMETERS_HEADER where
  TotalLength : Nat
  HeaderLength : Nat
  ConnectionOffset : Nat
  ConnectionLength : Nat
  InitiatorOffset : Nat
  InitiatorLength : Nat
  TargetOffset : Nat
  TargetLength : Nat
  NameOffset : Nat
  NameLength : Nat
  Id : List Nat
deriving DecidableEq, Repr

/-- The declaration of `ULTRA_CONTROLVM_PARAMETERS_HEADER` lives in
`controlvmchannel.h`, outside `parser.c`, so its layout is a parameter: `size`
is `sizeof(ULTRA_CONTROLVM_PARAMETERS_HEADER)` and `cast` is the
reinterpretation `(ULTRA_CONTROLVM_PARAMETERS_HEADER *) (ctx->data)`.  What
`cast` yields for a buffer shorter than the header (a read past the payload) is
left to the layout. -/
structure HeaderLayout where
  size : Nat
  cast : List Nat → ULTRA_CONTROLVM_PARAMETERS_HEADER

/-- The collaborators of `parser_init_guts`. -/
structure Env where
  /-- `kzalloc(size, ...)` returns a buffer. -/
  kzalloc : Nat → Bool
  /-- The value of `virt_to_phys(high_memory - 1)`. -/
  high_memory : Nat
  /-- The bytes found at `__va(addr)`. -/
  va : Nat → List Nat
  /-- `visor_memregion_create(addr, bytes)` returns a region. -/
  memregion_create : Nat → Nat → Bool
  /-- `visor_memregion_read(rgn, 0, ctx->data, bytes)`: the bytes read, or
  `none` for a negative return value. -/
  memregion_read : Nat → Nat → Option (List Nat)

/-- The first `n` bytes of `src` copied over a zeroed buffer of `n` bytes
(`kzalloc` followed by `memcpy(ctx->data, p, n)`). -/
def copy_in (n : Nat) (src : List Nat) : List Nat :=
  src.take n ++ List.replicate (n - (src.take n).length) 0

/-- Why `parser_init_guts` took a `goto Away` with `rc = NULL`; the C return
value is `NULL` for each of them. -/
inductive InitError where
  /-- Line 59: the request would exceed the throttling maximum. -/
  | Throttled
  /-- Line 70: `kzalloc` returned `NULL`. -/
  | AllocationFailed
  /-- The wrapped `int allocbytes` asked `kzalloc` for fewer bytes than the
  context and payload need, so the stores of lines 79-104 leave the allocation;
  C gives this no meaning and the model stops. -/
  | OutOfBounds
  /-- Line 86: bad local address. -/
  | InvalidAddress
  /-- Lines 97 and 101: the memory region could not be created or read. -/
  | TransportError
  /-- Line 112: `phdr->TotalLength != bytes`. -/
  | LengthMismatch
  /-- Line 119: `phdr->TotalLength < phdr->HeaderLength`. -/
  | HeaderExceedsTotal
  /-- Line 127: `phdr->HeaderLength < sizeof(ULTRA_CONTROLVM_PARAMETERS_HEADER)`. -/
  | HeaderTooSmall
deriving DecidableEq, Repr

/-- What a call of `parser_init_guts` leaves behind: the returned context (or
the reason for `NULL`), the caller's `*tryAgain` (`none` when the pointer is
`NULL`) and the global `Controlvm_Payload_Bytes_Buffered`. -/
structure InitResult where
  rc : Except InitError PARSER_CONTEXT
  tryAgain : Option Bool
  buffered : Nat

/-- The returned pointer: `none` is `NULL`. -/
def InitResult.ctx (r : InitResult) : Option PARSER_CONTEXT :=
  match r.rc with
  | .ok c => some c
  | .error _ => none

/-! ## `parser_done` -/

/-- The effect of `parser_done` on `Controlvm_Payload_Bytes_Buffered`:
nothing for `NULL`, otherwise `-= ctx->param_bytes`. -/
def parser_done (buffered : Nat) (ctx : Option PARSER_CONTEXT) : Nat :=
  match ctx with
  | none => buffered
  | some c => ulong_sub buffered c.param_bytes

/-! ## `parser_init_guts` -/

/-- The label `Away` reached with `rc = NULL` and an allocated `ctx`:
`parser_done(ctx)` runs. -/
def init_fail (buffered : Nat) (ctx : PARSER_CONTEXT) (e : InitError)
    (tryAgain : Option Bool) : InitResult :=
  { rc := .error e, tryAgain := tryAgain, buffered := parser_done buffered (some ctx) }

/-- The label `Away` reached with `rc = ctx`:
`Controlvm_Payload_Bytes_Buffered += ctx->param_bytes`. -/
def init_ok (buffered : Nat) (ctx : PARSER_CONTEXT) (tryAgain : Option Bool) : InitResult :=
  { rc := .ok ctx, tryAgain := tryAgain, buffered := ulong_add buffered ctx.param_bytes }

/-- Lines 106-136: the byte-stream exit and the three header checks, on the
context whose `data` has been filled. -/
def init_validate (lay : HeaderLayout) (buffered bytes : Nat) (hasStandardPayloadHeader : Bool)
    (ctx : PARSER_CONTEXT) (tryAgain : Option Bool) : InitResult :=
  if !hasStandardPayloadHeader then
    init_ok buffered { ctx with byte_stream := true } tryAgain
  else
    let phdr := lay.cast ctx.data
    if phdr.TotalLength ≠ bytes then
      init_fail buffered ctx .LengthMismatch tryAgain
    else if phdr.TotalLength < phdr.HeaderLength then
      init_fail buffered ctx .HeaderExceedsTotal tryAgain
    else if phdr.HeaderLength < lay.size then
      init_fail buffered ctx .HeaderTooSmall tryAgain
    else
      init_ok buffered ctx tryAgain

/-- Lines 84-105: where the payload bytes come from.  A local address above
`virt_to_phys(high_memory - 1)` is refused; otherwise the bytes at `__va(addr)`
are taken.  A remote address goes through `visor_memregion_create` and
`visor_memregion_read`. -/
def fetch_payload (env : Env) (addr bytes : Nat) (isLocal : Bool) : Except InitError (List Nat) :=
  if isLocal then
    if addr > env.high_memory then .error .InvalidAddress
    else .ok (env.va addr)
  else if !env.memregion_create addr bytes then .error .TransportError
  else
    match env.memregion_read addr bytes with
    | none => .error .TransportError
    | some src => .ok src

/-- The function `parser_init_guts`.  `buffered` is the value of
`Controlvm_Payload_Bytes_Buffered` on entry and `tryAgain` the value behind the
`tryAgain` pointer (`none` for a `NULL` pointer). -/
def parser_init_guts (env : Env) (lay : HeaderLayout) (buffered : Nat)
    (addr bytes : Nat) (isLocal hasStandardPayloadHeader : Bool)
    (tryAgain : Option Bool) : InitResult :=
  let extra : Nat := if hasStandardPayloadHeader then 0 else 1
  let need : Nat := sizeof_PARSER_CONTEXT + bytes + extra
  let allocbytes : Int := to_int need
  let cleared : Option Bool := tryAgain.map (fun _ => false)
  let again : Option Bool := tryAgain.map (fun _ => true)
  if ulong_add buffered bytes > MAX_CONTROLVM_PAYLOAD_BYTES then
    { rc := .error .Throttled, tryAgain := again, buffered := buffered }
  else if !env.kzalloc (to_size_t allocbytes) then
    { rc := .error .AllocationFailed, tryAgain := again, buffered := buffered }
  else if to_size_t allocbytes < need then
    { rc := .error .OutOfBounds, tryAgain := cleared, buffered := buffered }
  else
    let ctx : PARSER_CONTEXT :=
      { allocbytes := to_size_t allocbytes, param_bytes := bytes, curr := none,
        bytes_remaining := 0, byte_stream := false,
        data := List.replicate (bytes + extra) 0 }
    match fetch_payload env addr bytes isLocal with
    | .error e => init_fail buffered ctx e cleared
    | .ok src =>
      init_validate lay buffered bytes hasStandardPayloadHeader
        { ctx with data := copy_in bytes src ++ List.replicate extra 0 } cleared

/-- The function `parser_init`. -/
def parser_init (env : Env) (lay : HeaderLayout) (buffered : Nat)
    (addr bytes : Nat) (isLocal : Bool) (tryAgain : Option Bool) : InitResult :=
  parser_init_guts env lay buffered addr bytes isLocal true tryAgain

/-- The function `parser_init_byteStream`. -/
def parser_init_byteStream (env : Env) (lay : HeaderLayout) (buffered : Nat)
    (addr bytes : Nat) (isLocal : Bool) (tryAgain : Option Bool) : InitResult :=
  parser_init_guts env lay buffered addr bytes isLocal false tryAgain

/-! ## `string_length_no_trail` -/

/-- The function `string_length_no_trail(s, len)`: the loop index `i` runs from
`len - 1` down to `0`; the second argument here is `i + 1`. -/
def string_length_no_trail (s : List Nat) : Nat → Nat
  | 0 => 0
  | i + 1 => if !isspace (s.getD i 0) then i + 1 else string_length_no_trail s i

/-- The function `strlen`: the number of bytes before the first NUL. -/
def strlen (s : List Nat) : Nat := (s.takeWhile (fun c => c != 0)).length

/-- The C string held in a buffer: the bytes before the first NUL. -/
def c_string (s : List Nat) : List Nat := s.takeWhile (fun c => c != 0)

/-! ## `parser_param_get` -/

/-- Why `parser_param_get` returned `NULL`; the cases are told apart by the
diagnostic the source logs. -/
inductive ParamNull where
  /-- Lines 298-315: `NULL` without a diagnostic (no context, empty cursor,
  NUL at the cursor, only whitespace left). -/
  | endOfData
  /-- Lines 320 and 335: "name too big". -/
  | nameTooBig
  /-- Line 329: "unexpected end of input parsing name". -/
  | endInName
  /-- Lines 349 and 355: "unexpected end of input looking for value". -/
  | endBeforeValue
  /-- Line 364: "unexpected end of input after" the opening quote. -/
  | endAfterQuote
  /-- Lines 376 and 392: "unexpected end of input parsing quoted value". -/
  | endInQuotedValue
  /-- Line 402: `kmalloc` returned `NULL`. -/
  | noMemory
  /-- Line 431: "missing separator after quoted string". -/
  | missingSeparator
  /-- A byte was read outside `ctx->data`; C gives this no meaning. -/
  | outOfBounds
deriving DecidableEq, Repr

/-- What `parser_param_get` hands back: the `kmalloc`ed value together with the
string left in the caller's `nam` buffer, or `NULL`. -/
inductive ParamReturn where
  | value (nam : List Nat) (value : List Nat)
  | null (why : ParamNull)
deriving DecidableEq, Repr

/-- The loops of lines 311-316 and 345-353:
`while (isspace(*pscan)) { pscan++; nscan--; if (nscan == 0) return NULL; }`,
where `stop` tells which of the two `NULL` returns it is. -/
def skip_space (stop : ParamNull) : List Nat → Nat → Except ParamNull (List Nat × Nat)
  | [], _ => .error .outOfBounds
  | c :: s, nscan =>
    if isspace c then
      if ulong_dec nscan = 0 then .error stop
      else skip_space stop s (ulong_dec nscan)
    else .ok (c :: s, nscan)

/-- The loop of lines 318-333; `nam` collects the bytes stored through `pnam`. -/
def scan_name : List Nat → Nat → Int → List Nat →
    Except ParamNull (List Nat × Nat × Int × List Nat)
  | [], _, _, _ => .error .outOfBounds
  | c :: s, nscan, namesize, nam =>
    if c = 58 then .ok (c :: s, nscan, namesize, nam)
    else if namesize ≤ 0 then .error .nameTooBig
    else if ulong_dec nscan = 0 then .error .endInName
    else scan_name s (ulong_dec nscan) (namesize - 1) (nam ++ [toupper c])

/-- Lines 338-339: `*pnam = '\0'` and
`nam[string_length_no_trail(nam, strlen(nam))] = '\0'`; the result is the string
then held in `nam`. -/
def finish_name (stored : List Nat) : List Nat :=
  let nam := stored ++ [0]
  c_string (nam.set (string_length_no_trail nam (strlen nam)) 0)

/-- How the loop of lines 373-389 ends. -/
inductive ScanResult where
  /-- The `break` with `value_length = i`. -/
  | found (i : Nat)
  /-- The loop ran to `i == nscan`; `value_length` is still `-1`. -/
  | notFound
  /-- Line 375: a NUL inside a quoted value. -/
  | nulInQuote
  /-- The byte `pscan[i]` lies outside `ctx->data`. -/
  | outOfBounds
deriving DecidableEq, Repr

/-- The loop of lines 373-389, `for (i = 0; i < nscan; i++)`; the list holds the
bytes from `pscan[i]` on. -/
def scan_value (closing_quote nscan : Nat) : List Nat → Nat → ScanResult
  | [], i => if i < nscan then .outOfBounds else .notFound
  | c :: s, i =>
    if i < nscan then
      if closing_quote ≠ 0 then
        if c = 0 then .nulInQuote
        else if c = closing_quote then .found i
        else scan_value closing_quote nscan s (i + 1)
      else if c = 44 ∨ c = 59 ∨ c = 0 then .found i
      else scan_value closing_quote nscan s (i + 1)
    else .notFound

/-- The loop of lines 420-425, which leaves by `break` when `nscan` reaches 0;
`none` is a read outside the buffer. -/
def skip_space_break : List Nat → Nat → Option (List Nat × Nat)
  | [], _ => none
  | c :: s, nscan =>
    if isspace c then
      if ulong_dec nscan = 0 then some (s, 0)
      else skip_space_break s (ulong_dec nscan)
    else some (c :: s, nscan)

/-- Lines 409-437: step over the separator or closing quote and, after a quoted
value, over whitespace and the real separator. -/
def skip_separator (closing_quote : Nat) (pscan : List Nat) (nscan : Nat) :
    Except ParamNull (List Nat × Nat) :=
  let st : Option (List Nat × Nat) :=
    if nscan > 0 then
      match pscan with
      | [] => none
      | c :: s => if c ≠ 0 then some (s, ulong_dec nscan) else some (c :: s, nscan)
    else some (pscan, nscan)
  match st with
  | none => .error .outOfBounds
  | some (pscan, nscan) =>
    if closing_quote ≠ 0 ∧ nscan > 0 then
      match skip_space_break pscan nscan with
      | none => .error .outOfBounds
      | some (pscan, nscan) =>
        if nscan > 0 then
          match pscan with
          | [] => .error .outOfBounds
          | c :: s =>
            if c = 44 ∨ c = 59 then .ok (s, ulong_dec nscan)
            else if c ≠ 0 then .error .missingSeparator
            else .ok (c :: s, nscan)
        else .ok (pscan, nscan)
    else .ok (pscan, nscan)

/-- Lines 370-437, entered with `pscan` at the first byte of the value (after
the opening quote, if any): find the end of the value, copy it, step over what
follows.  Returns the value and the new `pscan`, `nscan`. -/
def take_value (kmalloc : Nat → Bool) (closing_quote : Nat) (pscan : List Nat) (nscan : Nat) :
    Except ParamNull (List Nat × List Nat × Nat) :=
  match scan_value closing_quote nscan pscan 0 with
  | .outOfBounds => .error .outOfBounds
  | .nulInQuote => .error .endInQuotedValue
  | r =>
    if r = .notFound ∧ closing_quote ≠ 0 then .error .endInQuotedValue
    else
      let orig_value_length : Nat :=
        match r with
        | .found i => i
        | _ => nscan
      let value_length : Nat :=
        if closing_quote = 0 then string_length_no_trail pscan orig_value_length
        else orig_value_length
      if !kmalloc (value_length + 1) then .error .noMemory
      else
        let value := pscan.take value_length
        match skip_separator closing_quote (pscan.drop orig_value_length)
            (ulong_sub nscan orig_value_length) with
        | .error e => .error e
        | .ok (pscan, nscan) => .ok (value, pscan, nscan)

/-- Lines 341-437, entered with `pscan` at the `:` that ends the name. -/
def after_name (kmalloc : Nat → Bool) (pscan : List Nat) (nscan : Nat) :
    Except ParamNull (List Nat × List Nat × Nat) :=
  match skip_space .endBeforeValue pscan.tail (ulong_dec nscan) with
  | .error e => .error e
  | .ok (pscan, nscan) =>
    if nscan = 0 then .error .endBeforeValue
    else
      match pscan with
      | [] => .error .outOfBounds
      | c :: s =>
        if c = 39 ∨ c = 34 then
          if ulong_dec nscan = 0 then .error .endAfterQuote
          else take_value kmalloc c s (ulong_dec nscan)
        else take_value kmalloc 0 (c :: s) nscan

/-- Lines 299-437 of `parser_param_get` on the scanning pointer and count:
the name, the value and the new `pscan`, `nscan`, or the `NULL` return taken. -/
def param_scan (kmalloc : Nat → Bool) (pscan : List Nat) (nscan : Nat) (namesize : Int) :
    Except ParamNull (List Nat × List Nat × List Nat × Nat) :=
  if nscan = 0 then .error .endOfData
  else
    match pscan with
    | [] => .error .outOfBounds
    | c :: _ =>
      if c = 0 then .error .endOfData
      else
        match skip_space .endOfData pscan nscan with
        | .error e => .error e
        | .ok (pscan, nscan) =>
          match scan_name pscan nscan namesize [] with
          | .error e => .error e
          | .ok (pscan, nscan, namesize, stored) =>
            if namesize ≤ 0 then .error .nameTooBig
            else
              match after_name kmalloc pscan nscan with
              | .error e => .error e
              | .ok (value, pscan, nscan) => .ok (finish_name stored, value, pscan, nscan)

/-- The bytes from `ctx->curr` to the end of `ctx->data` (none behind `NULL`). -/
def PARSER_CONTEXT.at_curr (ctx : PARSER_CONTEXT) : List Nat :=
  match ctx.curr with
  | none => []
  | some off => ctx.data.drop off

/-- The function `parser_param_get`.  The result pairs what is returned with
the context afterwards; the cursor is stored (lines 438-439) only when a value
is returned.  `kmalloc` tells whether an allocation of the given size succeeds. -/
def parser_param_get (kmalloc : Nat → Bool) (ctx : Option PARSER_CONTEXT) (namesize : Int) :
    ParamReturn × Option PARSER_CONTEXT :=
  match ctx with
  | none => (.null .endOfData, none)
  | some c =>
    match param_scan kmalloc c.at_curr c.bytes_remaining namesize with
    | .error e => (.null e, some c)
    | .ok (nam, value, pscan, nscan) =>
      (.value nam value,
        some { c with curr := some (c.data.length - pscan.length), bytes_remaining := nscan })

/-- Successive calls of `parser_param_get` on one context with the same name
capacity: what the first `k` calls return. -/
def param_get_calls (kmalloc : Nat → Bool) (namesize : Int) :
    Nat → Option PARSER_CONTEXT → List ParamReturn
  | 0, _ => []
  | k + 1, ctx =>
    (parser_param_get kmalloc ctx namesize).1 ::
      param_get_calls kmalloc namesize k (parser_param_get kmalloc ctx namesize).2

/-- A context whose buffer is `data` and whose cursor is `(off, len)`. -/
def cursor_ctx (data : List Nat) (off len : Nat) : PARSER_CONTEXT :=
  { allocbytes := sizeof_PARSER_CONTEXT + data.length, param_bytes := data.length,
    curr := some off, bytes_remaining := len, byte_stream := false, data := data }

/-! ## The accessors -/

/-- The function `parser_simpleString_get`: `NULL` unless the context is a byte
stream, otherwise the pointer `ctx->data`, given here as the buffer it points
to; the string it denotes is `c_string` of that buffer. -/
def parser_simpleString_get (ctx : PARSER_CONTEXT) : Option (List Nat) :=
  if !ctx.byte_stream then none else some ctx.data

/-- The function `parser_byteStream_get`: `NULL` unless the context is a byte
stream, otherwise `ctx->data` together with the value stored through `nbytes`
(`hasNbytes` tells whether that pointer is non-`NULL`). -/
def parser_byteStream_get (ctx : PARSER_CONTEXT) (hasNbytes : Bool) :
    Option (List Nat × Option Nat) :=
  if !ctx.byte_stream then none
  else some (ctx.data, if hasNbytes then some ctx.param_bytes else none)

/-- The value `Guid0`: sixteen zero bytes. -/
def Guid0 : List Nat := List.replicate 16 0

/-- The function `parser_id_get`. -/
def parser_id_get (lay : HeaderLayout) (ctx : Option PARSER_CONTEXT) : List Nat :=
  match ctx with
  | none => Guid0
  | some c => (lay.cast c.data).Id

/-- The enumeration `PARSER_WHICH_STRING` (declared in `parser.h`); `other` stands
for any value that is none of the four enumerators. -/
inductive PARSER_WHICH_STRING where
  | PARSERSTRING_INITIATOR
  | PARSERSTRING_TARGET
  | PARSERSTRING_CONNECTION
  | PARSERSTRING_NAME
  | other (v : Int)
deriving DecidableEq, Repr

/-- The function `parser_param_start`. -/
def parser_param_start (lay : HeaderLayout) (ctx : Option PARSER_CONTEXT)
    (which_string : PARSER_WHICH_STRING) : Option PARSER_CONTEXT :=
  match ctx with
  | none => none
  | some c =>
    let phdr := lay.cast c.data
    match which_string with
    | .PARSERSTRING_INITIATOR =>
      some { c with curr := some phdr.InitiatorOffset, bytes_remaining := phdr.InitiatorLength }
    | .PARSERSTRING_TARGET =>
      some { c with curr := some phdr.TargetOffset, bytes_remaining := phdr.TargetLength }
    | .PARSERSTRING_CONNECTION =>
      some { c with curr := some phdr.ConnectionOffset,
                    bytes_remaining := phdr.ConnectionLength }
    | .PARSERSTRING_NAME =>
      some { c with curr := some phdr.NameOffset, bytes_remaining := phdr.NameLength }
    | .other _ => some c

/-- The loop of lines 460-464 of `parser_string_get`; the list holds the bytes
from `pscan[i]` on. -/
def scan_nul (nscan : Nat) : List Nat → Nat → ScanResult
  | [], i => if i < nscan then .outOfBounds else .notFound
  | c :: s, i =>
    if i < nscan then
      if c = 0 then .found i else scan_nul nscan s (i + 1)
    else .notFound

/-- The function `parser_string_get`: the copied bytes (the source appends a NUL
to them), or the reason for `NULL`. -/
def parser_string_get (kmalloc : Nat → Bool) (ctx : Option PARSER_CONTEXT) :
    Except ParamNull (List Nat) :=
  match ctx with
  | none => .error .endOfData
  | some c =>
    if c.bytes_remaining = 0 then .error .endOfData
    else
      match c.curr with
      | none => .error .endOfData
      | some off =>
        match scan_nul c.bytes_remaining (c.data.drop off) 0 with
        | .outOfBounds => .error .outOfBounds
        | r =>
          let value_length : Nat :=
            match r with
            | .found i => i
            | _ => c.bytes_remaining
          if !kmalloc (value_length + 1) then .error .noMemory
          else .ok ((c.data.drop off).take value_length)

/-! ## Callers: a system of live contexts -/

/-- The global counter together with the contexts that have been returned by a
create call and not yet been handed to `parser_done`. -/
structure Sys where
  buffered : Nat
  live : List PARSER_CONTEXT

/-- A call made by the surrounding driver. -/
inductive Call where
  /-- A call of `parser_init` (`hasStandardPayloadHeader`) or `parser_init_byteStream`. -/
  | create (addr bytes : Nat) (isLocal hasStandardPayloadHeader : Bool)
  /-- A call of `parser_done` on the `k`-th live context. -/
  | destroy (k : Nat)

/-- Declared payload bytes of the live contexts. -/
def Sys.live_bytes (s : Sys) : Nat := (s.live.map PARSER_CONTEXT.param_bytes).sum

/-- One call. -/
def Sys.step (env : Env) (lay : HeaderLayout) (s : Sys) : Call → Sys
  | .create addr bytes isLocal hdr =>
    let r := parser_init_guts env lay s.buffered addr bytes isLocal hdr none
    { buffered := r.buffered,
      live := match r.ctx with
        | some c => c :: s.live
        | none => s.live }
  | .destroy k =>
    match s.live.get? k with
    | none => s
    | some c => { buffered := parser_done s.buffered (some c), live := s.live.eraseIdx k }

/-- A sequence of calls. -/
def Sys.run (env : Env) (lay : HeaderLayout) (s : Sys) (calls : List Call) : Sys :=
  calls.foldl (Sys.step env lay) s

/-! ## Vocabulary of the statements -/

/-- The active cursor of `ctx` covers exactly the bytes `text`, which stand in
the buffer between `pre` and `post`. -/
def covers (ctx : PARSER_CONTEXT) (pre text post : List Nat) : Prop :=
  ctx.data = pre ++ text ++ post ∧ ctx.curr = some pre.length ∧
    ctx.bytes_remaining = text.length

/-- The context after a call that stopped with `rest` bytes of the cursor left. -/
def advance (ctx : PARSER_CONTEXT) (rest post : List Nat) : PARSER_CONTEXT :=
  { ctx with curr := some (ctx.data.length - (rest ++ post).length),
             bytes_remaining := rest.length }

/-- No leading and no trailing whitespace. -/
def trimmed (l : List Nat) : Prop :=
  l.dropWhile isspace = l ∧ l.rdropWhile isspace = l

/-- The text `n_1:v_1,n_2:v_2,...,n_k:v_k` of a list of (name, value) pairs. -/
def render : List (List Nat × List Nat) → List Nat
  | [] => []
  | [p] => p.1 ++ 58 :: p.2
  | p :: q :: ps => p.1 ++ 58 :: p.2 ++ 44 :: render (q :: ps)

/-- A name as the exhaustion property takes it: non-empty, without `:` and NUL,
without leading or trailing whitespace, shorter than the name capacity. -/
def good_name (namesize : Int) (n : List Nat) : Prop :=
  n ≠ [] ∧ (∀ x ∈ n, x ≠ 58 ∧ x ≠ 0) ∧ trimmed n ∧ (n.length : Int) < namesize

/-- A value as the exhaustion property takes it: non-empty, without `,`, `;`
and NUL, not starting with a quote, without leading or trailing whitespace. -/
def good_value (v : List Nat) : Prop :=
  v ≠ [] ∧ (∀ x ∈ v, x ≠ 44 ∧ x ≠ 59 ∧ x ≠ 0) ∧ v.head? ≠ some 39 ∧ v.head? ≠ some 34 ∧
    trimmed v

/-- A byte that does not end an unquoted value: none of `,`, `;` and NUL. -/
def in_value (c : Nat) : Bool := c != 44 && c != 59 && c != 0

/-- The bytes of the name as they stand at the cursor: what lies between the
leading whitespace and the first `:`. -/
def name_span (ctx : PARSER_CONTEXT) : List Nat :=
  (ctx.at_curr.dropWhile isspace).takeWhile (fun c => c != 58)

instance (l : List Nat) : Decidable (trimmed l) := by
  unfold trimmed; infer_instance

instance (namesize : Int) (n : List Nat) : Decidable (good_name namesize n) := by
  unfold good_name; infer_instance

instance (v : List Nat) : Decidable (good_value v) := by
  unfold good_value; infer_instance

instance (ctx : PARSER_CONTEXT) (pre text post : List Nat) :
    Decidable (covers ctx pre text post) := by
  unfold covers; infer_instance

/-! ## Concrete collaborators used for evaluation -/

/-- A 32-bit little-endian field at offset `off`; bytes missing from the list read
as zero. -/
def le32 (d : List Nat) (off : Nat) : Nat :=
  d.getD off 0 + 256 * d.getD (off + 1) 0 + 65536 * d.getD (off + 2) 0
    + 16777216 * d.getD (off + 3) 0

/-- Modelled from the spec: the layout of the structured header, declared in
`controlvmchannel.h`, outside `parser.c`.  The spec lists
total length, header length, an identifying token and an (offset, length) pair
per field kind; this layout places them as 32-bit little-endian fields followed
by a 16-byte token, 64 bytes in all.  It serves concrete evaluations only: every
general theorem holds for an arbitrary `HeaderLayout`. -/
def demo_layout : HeaderLayout :=
  { size := 64,
    cast := fun d =>
      { TotalLength := le32 d 0, HeaderLength := le32 d 4,
        ConnectionOffset := le32 d 8, ConnectionLength := le32 d 12,
        InitiatorOffset := le32 d 16, InitiatorLength := le32 d 20,
        TargetOffset := le32 d 24, TargetLength := le32 d 28,
        NameOffset := le32 d 32, NameLength := le32 d 36,
        Id := (d.drop 40).take 16 } }

/-- Collaborators that always succeed and deliver `payload` at every address. -/
def demo_env (payload : List Nat) : Env :=
  { kzalloc := fun _ => true, high_memory := 4294967295, va := fun _ => payload,
    memregion_create := fun _ _ => true, memregion_read := fun _ _ => some payload }

/-- A 64-byte payload that is a bare header with the given total and header
lengths (both below 256) and every other field zero. -/
def demo_header (total header : Nat) : List Nat :=
  [total, 0, 0, 0, header, 0, 0, 0] ++ List.replicate 56 0

/-- The byte-stream context made from the five bytes of "hello". -/
def hello_ctx : PARSER_CONTEXT :=
  { allocbytes := 46, param_bytes := 5, curr := none, bytes_remaining := 0,
    byte_stream := true, data := [104, 101, 108, 108, 111, 0] }

/-- The byte count `sizeof(PARSER_CONTEXT) + bytes`, plus one without a standard
payload header, that the context and its payload need. -/
def alloc_need (bytes : Nat) (hasStandardPayloadHeader : Bool) : Nat :=
  sizeof_PARSER_CONTEXT + bytes + if hasStandardPayloadHeader then 0 else 1

/-- The size `parser_init_guts` hands to `kzalloc`: `alloc_need` taken through the
`int allocbytes` and converted to `size_t`. -/
def alloc_request (bytes : Nat) (hasStandardPayloadHeader : Bool) : Nat :=
  to_size_t (to_int (alloc_need bytes hasStandardPayloadHeader))

/-- Collaborators that deliver `payload` at every address and whose `kzalloc`
always returns `NULL`. -/
def demo_env_no_memory (payload : List Nat) : Env :=
  { kzalloc := fun _ => false, high_memory := 4294967295, va := fun _ => payload,
    memregion_create := fun _ _ => true, memregion_read := fun _ _ => some payload }

/-! ## Theorems: context creation and the throttle -/

theorem to_size_t_to_int_small (n : Nat) (h : n < 2147483648) : to_size_t (to_int n) = n := by
  have h1 : n % 4294967296 = n := Nat.mod_eq_of_lt (by omega)
  simp only [to_int, h1, h, if_true, to_size_t, ULONG_MOD]
  have : ((n : Int) % ((18446744073709551616 : Nat) : Int)) = (n : Int) := by
    apply Int.emod_eq_of_lt <;> omega
  rw [this]; simp

theorem init_validate_ctx_isSome (lay : HeaderLayout) (buffered bytes : Nat)
    (ctx : PARSER_CONTEXT) (tryAgain : Option Bool) :
    (init_validate lay buffered bytes true ctx tryAgain).ctx.isSome = true ↔
      ((lay.cast ctx.data).TotalLength = bytes ∧
        (lay.cast ctx.data).HeaderLength ≤ (lay.cast ctx.data).TotalLength ∧
        lay.size ≤ (lay.cast ctx.data).HeaderLength) := by
  simp only [init_validate, Bool.not_true, Bool.false_eq_true, if_false]
  split_ifs with h1 h2 h3 <;> simp [init_fail, init_ok, InitResult.ctx] <;> omega

/-- C1: when a structured create of `bytes` bytes is admitted by the throttle,
its buffer is allocated and the payload `src` is read, `parser_init` returns a
context exactly when the header found in the ingested bytes has
`TotalLength = bytes`, `TotalLength ≥ HeaderLength` and
`HeaderLength ≥ sizeof(header)`; a header whose `TotalLength` differs from
`bytes` is refused as a length mismatch. -/
theorem parser_init_accepts_iff_header_valid (env : Env) (lay : HeaderLayout)
    (buffered addr bytes : Nat) (isLocal : Bool) (tryAgain : Option Bool) (src : List Nat)
    (hroom : ulong_add buffered bytes ≤ MAX_CONTROLVM_PAYLOAD_BYTES)
    (halloc : env.kzalloc (to_size_t (to_int (sizeof_PARSER_CONTEXT + bytes))) = true)
    (hfits : sizeof_PARSER_CONTEXT + bytes ≤ to_size_t (to_int (sizeof_PARSER_CONTEXT + bytes)))
    (hread : fetch_payload env addr bytes isLocal = .ok src) :
    ((parser_init env lay buffered addr bytes isLocal tryAgain).ctx.isSome = true ↔
      ((lay.cast (copy_in bytes src)).TotalLength = bytes ∧
        (lay.cast (copy_in bytes src)).HeaderLength ≤ (lay.cast (copy_in bytes src)).TotalLength ∧
        lay.size ≤ (lay.cast (copy_in bytes src)).HeaderLength)) ∧
    ((lay.cast (copy_in bytes src)).TotalLength ≠ bytes →
      (parser_init env lay buffered addr bytes isLocal tryAgain).rc = .error .LengthMismatch) := by
  have hguts : parser_init env lay buffered addr bytes isLocal tryAgain =
      init_validate lay buffered bytes true
        { allocbytes := to_size_t (to_int (sizeof_PARSER_CONTEXT + bytes)), param_bytes := bytes,
          curr := none, bytes_remaining := 0, byte_stream := false,
          data := copy_in bytes src } (tryAgain.map (fun _ => false)) := by
    simp only [parser_init, parser_init_guts, if_true, Nat.add_zero, hread, halloc,
      Bool.not_true, Bool.false_eq_true, if_false, List.replicate_zero, List.append_nil]
    rw [if_neg (by omega), if_neg (by omega)]
  rw [hguts]
  refine ⟨init_validate_ctx_isSome lay buffered bytes _ _, ?_⟩
  intro hne
  simp [init_validate, hne, init_fail]

/-- Witness for C1: a 64-byte bare header that announces 64 bytes, read from a
local address with nothing reserved. -/
theorem parser_init_accepts_iff_header_valid_witness :
    ulong_add 0 64 ≤ MAX_CONTROLVM_PAYLOAD_BYTES ∧
    fetch_payload (demo_env (demo_header 64 64)) 0 64 true = .ok (demo_header 64 64) ∧
    ((parser_init (demo_env (demo_header 64 64)) demo_layout 0 0 64 true none).ctx.isSome = true ↔
      ((demo_layout.cast (copy_in 64 (demo_header 64 64))).TotalLength = 64 ∧
        (demo_layout.cast (copy_in 64 (demo_header 64 64))).HeaderLength ≤
          (demo_layout.cast (copy_in 64 (demo_header 64 64))).TotalLength ∧
        demo_layout.size ≤ (demo_layout.cast (copy_in 64 (demo_header 64 64))).HeaderLength)) :=
  ⟨by decide, by rfl,
    (parser_init_accepts_iff_header_valid (demo_env (demo_header 64 64)) demo_layout
      0 0 64 true none (demo_header 64 64) (by decide) (by rfl) (by decide) (by rfl)).1⟩

theorem init_validate_not_throttled (lay : HeaderLayout) (buffered bytes : Nat) (hdr : Bool)
    (ctx : PARSER_CONTEXT) (tryAgain : Option Bool) :
    (init_validate lay buffered bytes hdr ctx tryAgain).rc ≠ .error .Throttled := by
  simp only [init_validate]
  split_ifs <;> simp [init_fail, init_ok]

theorem fetch_payload_not_throttled (env : Env) (addr bytes : Nat) (isLocal : Bool) :
    fetch_payload env addr bytes isLocal ≠ .error .Throttled := by
  simp only [fetch_payload]
  split_ifs <;> try simp
  split <;> simp

theorem to_size_t_lt (i : Int) : to_size_t i < ULONG_MOD := by
  have h1 : i % ((ULONG_MOD : Nat) : Int) < ((ULONG_MOD : Nat) : Int) :=
    Int.emod_lt_of_pos _ (by simp [ULONG_MOD])
  have h2 : 0 ≤ i % ((ULONG_MOD : Nat) : Int) := Int.emod_nonneg _ (by simp [ULONG_MOD])
  simp only [to_size_t]
  omega

/-- The five ways through `parser_init_guts`. -/
theorem parser_init_guts_cases (env : Env) (lay : HeaderLayout)
    (buffered addr bytes : Nat) (isLocal hdr : Bool) (tryAgain : Option Bool) :
    (ulong_add buffered bytes > MAX_CONTROLVM_PAYLOAD_BYTES ∧
      parser_init_guts env lay buffered addr bytes isLocal hdr tryAgain =
        { rc := .error .Throttled, tryAgain := tryAgain.map (fun _ => true),
          buffered := buffered }) ∨
    (ulong_add buffered bytes ≤ MAX_CONTROLVM_PAYLOAD_BYTES ∧
      parser_init_guts env lay buffered addr bytes isLocal hdr tryAgain =
        { rc := .error .AllocationFailed, tryAgain := tryAgain.map (fun _ => true),
          buffered := buffered }) ∨
    (ulong_add buffered bytes ≤ MAX_CONTROLVM_PAYLOAD_BYTES ∧
      parser_init_guts env lay buffered addr bytes isLocal hdr tryAgain =
        { rc := .error .OutOfBounds, tryAgain := tryAgain.map (fun _ => false),
          buffered := buffered }) ∨
    (ulong_add buffered bytes ≤ MAX_CONTROLVM_PAYLOAD_BYTES ∧
      ∃ e ctx, fetch_payload env addr bytes isLocal = .error e ∧ ctx.param_bytes = bytes ∧
        parser_init_guts env lay buffered addr bytes isLocal hdr tryAgain =
          init_fail buffered ctx e (tryAgain.map (fun _ => false))) ∨
    (ulong_add buffered bytes ≤ MAX_CONTROLVM_PAYLOAD_BYTES ∧ bytes < ULONG_MOD ∧
      ∃ src ctx, fetch_payload env addr bytes isLocal = .ok src ∧ ctx.param_bytes = bytes ∧
        parser_init_guts env lay buffered addr bytes isLocal hdr tryAgain =
          init_validate lay buffered bytes hdr ctx (tryAgain.map (fun _ => false))) := by
  by_cases h1 : ulong_add buffered bytes > MAX_CONTROLVM_PAYLOAD_BYTES
  · left
    exact ⟨h1, by simp [parser_init_guts, h1]⟩
  · right
    have h1' : ulong_add buffered bytes ≤ MAX_CONTROLVM_PAYLOAD_BYTES := by omega
    simp only [parser_init_guts, if_neg h1]
    by_cases h2 : (!env.kzalloc (to_size_t (to_int (sizeof_PARSER_CONTEXT + bytes +
        if hdr = true then 0 else 1)))) = true
    · left
      exact ⟨h1', by rw [if_pos h2]⟩
    · right
      rw [if_neg h2]
      by_cases h3 : to_size_t (to_int (sizeof_PARSER_CONTEXT + bytes +
          if hdr = true then 0 else 1)) < sizeof_PARSER_CONTEXT + bytes +
            if hdr = true then 0 else 1
      · left
        exact ⟨h1', by rw [if_pos h3]⟩
      · right
        rw [if_neg h3]
        cases hf : fetch_payload env addr bytes isLocal with
        | error e => left; exact ⟨h1', e, _, rfl, rfl, rfl⟩
        | ok src =>
          right
          have hlt := to_size_t_lt (to_int (sizeof_PARSER_CONTEXT + bytes +
            if hdr = true then 0 else 1))
          exact ⟨h1', by omega, src, _, rfl, rfl, rfl⟩

theorem parser_init_guts_throttled_iff (env : Env) (lay : HeaderLayout)
    (buffered addr bytes : Nat) (isLocal hdr : Bool) (tryAgain : Option Bool) :
    (parser_init_guts env lay buffered addr bytes isLocal hdr tryAgain).rc = .error .Throttled ↔
      ulong_add buffered bytes > MAX_CONTROLVM_PAYLOAD_BYTES := by
  rcases parser_init_guts_cases env lay buffered addr bytes isLocal hdr tryAgain with
    ⟨h, hr⟩ | ⟨h, hr⟩ | ⟨h, hr⟩ | ⟨h, e, ctx, hf, -, hr⟩ | ⟨h, -, src, ctx, -, -, hr⟩
  · simp [hr, h]
  · rw [hr]; simp; omega
  · rw [hr]; simp; omega
  · rw [hr]
    have hne : e ≠ .Throttled := fun he =>
      fetch_payload_not_throttled env addr bytes isLocal (he ▸ hf)
    simp [init_fail, hne]; omega
  · rw [hr]
    have := init_validate_not_throttled lay buffered bytes hdr ctx (tryAgain.map (fun _ => false))
    simp [this]; omega

/-- The test of line 59 on the counter: a create request for `bytes` bytes takes
the throttle exit exactly when the `unsigned long` sum of the counter and
`bytes` exceeds the ceiling, which (when that sum does not wrap) is
`buffered + bytes > 131072`; that exit leaves the counter unchanged and returns
no context.  With a counter of 0, 131072 bytes pass the test and 131073 bytes do
not. -/
theorem throttle_exit_on_counter (env : Env) (lay : HeaderLayout)
    (buffered addr bytes : Nat) (isLocal hdr : Bool) (tryAgain : Option Bool) :
    ((parser_init_guts env lay buffered addr bytes isLocal hdr tryAgain).rc = .error .Throttled ↔
      ulong_add buffered bytes > MAX_CONTROLVM_PAYLOAD_BYTES) ∧
    (buffered + bytes < ULONG_MOD →
      ((parser_init_guts env lay buffered addr bytes isLocal hdr tryAgain).rc = .error .Throttled ↔
        buffered + bytes > 131072)) ∧
    ((parser_init_guts env lay buffered addr bytes isLocal hdr tryAgain).rc = .error .Throttled →
      (parser_init_guts env lay buffered addr bytes isLocal hdr tryAgain).buffered = buffered ∧
      (parser_init_guts env lay buffered addr bytes isLocal hdr tryAgain).ctx = none) ∧
    (parser_init_guts env lay 0 addr 131072 isLocal hdr tryAgain).rc ≠ .error .Throttled ∧
    (parser_init_guts env lay 0 addr 131073 isLocal hdr tryAgain).rc = .error .Throttled := by
  refine ⟨parser_init_guts_throttled_iff _ _ _ _ _ _ _ _, ?_, ?_, ?_, ?_⟩
  · intro hlt
    rw [parser_init_guts_throttled_iff]
    simp only [ulong_add, Nat.mod_eq_of_lt hlt, MAX_CONTROLVM_PAYLOAD_BYTES]
  · intro h
    have h1 := (parser_init_guts_throttled_iff _ _ _ _ _ _ _ _).1 h
    refine ⟨?_, ?_⟩
    · simp [parser_init_guts, h1]
    · simp [InitResult.ctx, h]
  · rw [Ne, parser_init_guts_throttled_iff]; decide
  · rw [parser_init_guts_throttled_iff]; decide

theorem ulong_sub_add_cancel (a b : Nat) (ha : a < ULONG_MOD) (hb : b < ULONG_MOD) :
    ulong_sub (ulong_add a b) b = a := by
  simp only [ulong_sub, ulong_add, ULONG_MOD] at *
  split_ifs <;> omega

theorem init_validate_ok (lay : HeaderLayout) (buffered bytes : Nat) (hdr : Bool)
    (ctx c : PARSER_CONTEXT) (tryAgain : Option Bool)
    (h : (init_validate lay buffered bytes hdr ctx tryAgain).rc = .ok c) :
    c.param_bytes = ctx.param_bytes ∧
      (init_validate lay buffered bytes hdr ctx tryAgain).buffered =
        ulong_add buffered ctx.param_bytes := by
  simp only [init_validate] at h ⊢
  split_ifs at h ⊢
  · simp only [init_ok, Except.ok.injEq] at h
    subst h
    exact ⟨rfl, rfl⟩
  · simp [init_fail] at h
  · simp [init_fail] at h
  · simp [init_fail] at h
  · simp only [init_ok, Except.ok.injEq] at h
    subst h
    exact ⟨rfl, rfl⟩

theorem parser_init_guts_ok (env : Env) (lay : HeaderLayout)
    (buffered addr bytes : Nat) (isLocal hdr : Bool) (tryAgain : Option Bool)
    (c : PARSER_CONTEXT)
    (hok : (parser_init_guts env lay buffered addr bytes isLocal hdr tryAgain).rc = .ok c) :
    bytes < ULONG_MOD ∧ c.param_bytes = bytes ∧
      (parser_init_guts env lay buffered addr bytes isLocal hdr tryAgain).buffered =
        ulong_add buffered bytes := by
  rcases parser_init_guts_cases env lay buffered addr bytes isLocal hdr tryAgain with
    ⟨-, hr⟩ | ⟨-, hr⟩ | ⟨-, hr⟩ | ⟨-, e, ctx, -, -, hr⟩ | ⟨-, hlt, src, ctx, -, hp, hr⟩
  · rw [hr] at hok; simp at hok
  · rw [hr] at hok; simp at hok
  · rw [hr] at hok; simp at hok
  · rw [hr] at hok; simp [init_fail] at hok
  · rw [hr] at hok ⊢
    have := init_validate_ok _ _ _ _ _ _ _ hok
    rw [hp] at this
    exact ⟨hlt, this⟩

/-- C5: a successful create of `bytes` bytes, in either mode, leaves the context
with `param_bytes = bytes` and adds exactly `bytes` to the `unsigned long`
counter (the terminator byte of byte-stream mode is not counted; without
wrap-around the new value is `buffered + bytes`), and `parser_done` on that context
subtracts `bytes` again, restoring the counter. -/
theorem create_then_done_restores (env : Env) (lay : HeaderLayout)
    (buffered addr bytes : Nat) (isLocal hdr : Bool) (tryAgain : Option Bool)
    (c : PARSER_CONTEXT) (hword : buffered < ULONG_MOD)
    (hok : (parser_init_guts env lay buffered addr bytes isLocal hdr tryAgain).rc = .ok c) :
    c.param_bytes = bytes ∧
    (parser_init_guts env lay buffered addr bytes isLocal hdr tryAgain).buffered =
      ulong_add buffered bytes ∧
    (buffered + bytes < ULONG_MOD →
      (parser_init_guts env lay buffered addr bytes isLocal hdr tryAgain).buffered =
        buffered + bytes) ∧
    parser_done (parser_init_guts env lay buffered addr bytes isLocal hdr tryAgain).buffered
      (some c) = buffered := by
  obtain ⟨h0, h1, h2⟩ :=
    parser_init_guts_ok env lay buffered addr bytes isLocal hdr tryAgain c hok
  refine ⟨h1, h2, ?_, ?_⟩
  · intro hlt
    rw [h2, ulong_add, Nat.mod_eq_of_lt hlt]
  · rw [h2, parser_done, h1]
    exact ulong_sub_add_cancel buffered bytes hword h0

/-- Witness for C5: the five bytes "hello" ingested as a byte stream while 100
bytes are reserved. -/
theorem create_then_done_restores_witness :
    (parser_init_guts (demo_env [104, 101, 108, 108, 111]) demo_layout 100 0 5 true false
      none).rc = .ok hello_ctx ∧
    hello_ctx.param_bytes = 5 ∧
    (parser_init_guts (demo_env [104, 101, 108, 108, 111]) demo_layout 100 0 5 true false
      none).buffered = ulong_add 100 5 ∧
    (100 + 5 < ULONG_MOD →
      (parser_init_guts (demo_env [104, 101, 108, 108, 111]) demo_layout 100 0 5 true false
        none).buffered = 100 + 5) ∧
    parser_done (parser_init_guts (demo_env [104, 101, 108, 108, 111]) demo_layout 100 0 5 true
      false none).buffered (some hello_ctx) = 100 :=
  ⟨by rfl, create_then_done_restores (demo_env [104, 101, 108, 108, 111]) demo_layout 100 0 5
    true false none hello_ctx (by decide) (by rfl)⟩

/-- C4 (the code departs from it): with 100 bytes reserved, a structured create
of a 64-byte payload whose header announces 65 bytes fails as a length mismatch
and leaves the counter at 36 instead of 100: `parser_done` on the error path
subtracts bytes that were never added. -/
theorem failed_create_releases_unreserved_bytes :
    (parser_init (demo_env (demo_header 65 64)) demo_layout 100 0 64 true none).rc =
      .error .LengthMismatch ∧
    (parser_init (demo_env (demo_header 65 64)) demo_layout 100 0 64 true none).buffered = 36 := by
  constructor <;> rfl

/-- C6 (the code departs from it): from the initial state, a byte-stream create
of 100 bytes followed by a failing structured create of 64 bytes leaves one live
context of 100 bytes and a counter of 36; a further byte-stream create of 131000
bytes is then admitted, so the live contexts hold 131100 bytes, above the
ceiling. -/
theorem counter_drifts_from_live_bytes :
    (Sys.run (demo_env (demo_header 65 64)) demo_layout { buffered := 0, live := [] }
      [.create 0 100 true false, .create 0 64 true true]).buffered = 36 ∧
    (Sys.run (demo_env (demo_header 65 64)) demo_layout { buffered := 0, live := [] }
      [.create 0 100 true false, .create 0 64 true true]).live_bytes = 100 ∧
    (Sys.run (demo_env (demo_header 65 64)) demo_layout { buffered := 0, live := [] }
      [.create 0 100 true false, .create 0 64 true true,
        .create 0 131000 true false]).live_bytes = 131100 ∧
    MAX_CONTROLVM_PAYLOAD_BYTES < 131100 := by
  refine ⟨by rfl, by rfl, ?_, by decide⟩
  rfl



/-! ## Lemmas: the loops of `parser_param_get` -/

theorem ulong_dec_pos (n : Nat) (h : 0 < n) : ulong_dec n = n - 1 := by
  simp [ulong_dec]; omega

theorem skip_space_nonspace (stop : ParamNull) (c : Nat) (s : List Nat) (n : Nat)
    (hc : isspace c = false) : skip_space stop (c :: s) n = .ok (c :: s, n) := by
  simp [skip_space, hc]

theorem skip_space_append (stop : ParamNull) (ws : List Nat) (c : Nat) (r : List Nat)
    (n : Nat) (hws : ∀ x ∈ ws, isspace x = true) (hc : isspace c = false)
    (hn : ws.length < n) :
    skip_space stop (ws ++ c :: r) n = .ok (c :: r, n - ws.length) := by
  induction ws generalizing n with
  | nil => simp [skip_space, hc]
  | cons w ws ih =>
    have hw : isspace w = true := hws w (by simp)
    simp only [List.length_cons] at hn
    have hd : ulong_dec n = n - 1 := ulong_dec_pos n (by omega)
    have hne : n - 1 ≠ 0 := by omega
    rw [List.cons_append, skip_space]
    simp only [hw, if_true, hd, hne, if_false]
    rw [ih (n - 1) (fun x hx => hws x (by simp [hx])) (by omega)]
    simp only [List.length_cons]
    congr 2
    omega

theorem skip_space_ok_eq (stop : ParamNull) (s : List Nat) (n : Nat) (s' : List Nat) (n' : Nat)
    (h : skip_space stop s n = .ok (s', n')) : s' = s.dropWhile isspace := by
  induction s generalizing n with
  | nil => simp [skip_space] at h
  | cons c s ih =>
    simp only [skip_space] at h
    by_cases hc : isspace c = true
    · simp only [hc, if_true] at h
      split_ifs at h
      rw [List.dropWhile_cons_of_pos hc]
      exact ih _ h
    · simp only [hc, Bool.false_eq_true, if_false, Except.ok.injEq, Prod.mk.injEq] at h
      rw [List.dropWhile_cons_of_neg hc]
      exact h.1.symm

theorem scan_name_append (raw : List Nat) (r : List Nat) (n : Nat) (namesize : Int)
    (nam : List Nat) (hraw : ∀ x ∈ raw, x ≠ 58) (hn : raw.length < n)
    (hfit : (raw.length : Int) < namesize) :
    scan_name (raw ++ 58 :: r) n namesize nam =
      .ok (58 :: r, n - raw.length, namesize - raw.length, nam ++ raw.map toupper) := by
  induction raw generalizing n namesize nam with
  | nil => simp [scan_name]
  | cons c raw ih =>
    have hc : c ≠ 58 := hraw c (by simp)
    simp only [List.length_cons] at hn
    simp only [List.length_cons, Nat.cast_add, Nat.cast_one] at hfit
    have hd : ulong_dec n = n - 1 := ulong_dec_pos n (by omega)
    have hne : n - 1 ≠ 0 := by omega
    have hns : ¬ namesize ≤ 0 := by omega
    rw [List.cons_append, scan_name]
    simp only [hc, if_false, hd, hne, hns]
    rw [ih (n - 1) (namesize - 1) _ (fun x hx => hraw x (by simp [hx])) (by omega) (by omega)]
    simp only [List.length_cons, List.map_cons, List.append_assoc, List.singleton_append,
      Nat.cast_add, Nat.cast_one]
    congr 3
    · omega
    · congr 1
      omega

/-- A name of `namesize` bytes or more is refused, in the loop (line 320) or by
the check after it (line 335). -/
theorem scan_name_too_long (raw : List Nat) (r : List Nat) (n : Nat) (namesize : Int)
    (nam : List Nat) (hraw : ∀ x ∈ raw, x ≠ 58) (hn : raw.length < n)
    (hbig : namesize ≤ (raw.length : Int)) :
    scan_name (raw ++ 58 :: r) n namesize nam = .error .nameTooBig ∨
      ∃ s' n' namesize' nam', scan_name (raw ++ 58 :: r) n namesize nam =
        .ok (s', n', namesize', nam') ∧ namesize' ≤ 0 := by
  induction raw generalizing n namesize nam with
  | nil =>
    right
    exact ⟨58 :: r, n, namesize, nam, by simp [scan_name], by simpa using hbig⟩
  | cons c raw ih =>
    have hc : c ≠ 58 := hraw c (by simp)
    simp only [List.length_cons] at hn
    simp only [List.length_cons, Nat.cast_add, Nat.cast_one] at hbig
    have hd : ulong_dec n = n - 1 := ulong_dec_pos n (by omega)
    have hne : n - 1 ≠ 0 := by omega
    rw [List.cons_append, scan_name]
    simp only [hc, if_false, hd, hne]
    by_cases hns : namesize ≤ 0
    · left; rw [if_pos hns]
    · rw [if_neg hns]
      exact ih (n - 1) (namesize - 1) _ (fun x hx => hraw x (by simp [hx])) (by omega) (by omega)

theorem scan_name_ok_eq (s : List Nat) (n : Nat) (namesize : Int) (nam : List Nat)
    (s' : List Nat) (n' : Nat) (namesize' : Int) (nam' : List Nat)
    (h : scan_name s n namesize nam = .ok (s', n', namesize', nam')) :
    nam' = nam ++ (s.takeWhile (fun c => c != 58)).map toupper := by
  induction s generalizing n namesize nam with
  | nil => simp [scan_name] at h
  | cons c s ih =>
    simp only [scan_name] at h
    by_cases hc : c = 58
    · simp only [hc, if_true, Except.ok.injEq, Prod.mk.injEq] at h
      simp [hc, h.2.2.2]
    · simp only [hc, if_false] at h
      split_ifs at h
      rw [ih _ _ _ h]
      rw [List.takeWhile_cons]
      simp [hc]

theorem string_length_no_trail_eq (s : List Nat) (k : Nat) (hk : k ≤ s.length) :
    string_length_no_trail s k = ((s.take k).rdropWhile isspace).length := by
  induction k with
  | zero => simp [string_length_no_trail]
  | succ k ih =>
    have hlt : k < s.length := by omega
    have htake : s.take (k + 1) = s.take k ++ [s.getD k 0] := by
      rw [List.take_succ, List.getD_eq_getElem?_getD]
      simp [List.getElem?_eq_getElem hlt]
    rw [string_length_no_trail, htake]
    by_cases hsp : isspace (s.getD k 0) = true
    · rw [List.rdropWhile_concat_pos _ _ _ hsp]
      simp only [hsp, Bool.not_true, Bool.false_eq_true, if_false]
      exact ih (by omega)
    · rw [List.rdropWhile_concat_neg _ _ _ hsp]
      have hsp' : isspace (s.getD k 0) = false := by simpa using hsp
      simp only [hsp', Bool.not_false, if_true, List.length_append, List.length_take,
        List.length_singleton]
      omega

theorem take_string_length_no_trail (s : List Nat) (k : Nat) (hk : k ≤ s.length) :
    s.take (string_length_no_trail s k) = (s.take k).rdropWhile isspace := by
  have hpre : (s.take k).rdropWhile isspace <+: s :=
    (List.rdropWhile_prefix isspace (s.take k)).trans (List.take_prefix k s)
  rw [string_length_no_trail_eq s k hk]
  exact (List.prefix_iff_eq_take.1 hpre).symm

theorem c_string_of_no_nul (s t : List Nat) (hs : ∀ x ∈ s, x ≠ 0) :
    c_string (s ++ 0 :: t) = s := by
  induction s with
  | nil => simp [c_string]
  | cons c s ih =>
    have hc : c ≠ 0 := hs c (by simp)
    have := ih (fun x hx => hs x (by simp [hx]))
    simp only [c_string] at this ⊢
    simp [hc, this]

theorem strlen_of_no_nul (s t : List Nat) (hs : ∀ x ∈ s, x ≠ 0) :
    strlen (s ++ 0 :: t) = s.length := by
  have := c_string_of_no_nul s t hs
  simp only [c_string] at this
  simp [strlen, this]

/-- Lines 338-339 on a stored name without NUL: trailing whitespace is cut. -/
theorem finish_name_of_no_nul (stored : List Nat) (hs : ∀ x ∈ stored, x ≠ 0) :
    finish_name stored = stored.rdropWhile isspace := by
  have hlen : strlen (stored ++ [0]) = stored.length := strlen_of_no_nul stored [] hs
  have htk : (stored ++ [0]).take stored.length = stored := by simp
  have hk : string_length_no_trail (stored ++ [0]) stored.length =
      (stored.rdropWhile isspace).length := by
    rw [string_length_no_trail_eq _ _ (by simp), htk]
  obtain ⟨t, ht⟩ := List.rdropWhile_prefix isspace stored
  have hsplit : stored ++ [0] = stored.rdropWhile isspace ++ (t ++ [0]) := by
    rw [← List.append_assoc, ht]
  have hset : (stored ++ [0]).set (stored.rdropWhile isspace).length 0 =
      stored.rdropWhile isspace ++ 0 :: (t ++ [0]).tail := by
    rw [hsplit, List.set_append_right _ _ (le_refl _)]
    cases t <;> simp
  simp only [finish_name, hlen, hk, hset]
  apply c_string_of_no_nul
  intro x hx
  exact hs x ((List.rdropWhile_prefix isspace stored).subset hx)

theorem toupper_ne_zero (c : Nat) (h : c ≠ 0) : toupper c ≠ 0 := by
  simp only [toupper]; split_ifs <;> omega

theorem isspace_toupper (c : Nat) : isspace (toupper c) = isspace c := by
  simp only [toupper]
  split_ifs with h
  · have h1 : isspace c = false := by
      simp only [isspace, Bool.or_eq_false_iff, beq_eq_false_iff_ne, Bool.and_eq_false_iff,
        decide_eq_false_iff_not]
      omega
    have h2 : isspace (c - 32) = false := by
      simp only [isspace, Bool.or_eq_false_iff, beq_eq_false_iff_ne, Bool.and_eq_false_iff,
        decide_eq_false_iff_not]
      omega
    rw [h1, h2]
  · rfl

theorem ulong_sub_le (a b : Nat) (h : b ≤ a) : ulong_sub a b = a - b := by
  simp [ulong_sub, h]

theorem scan_value_unquoted_found (body : List Nat) (sep : Nat) (r : List Nat) (n i : Nat)
    (hbody : ∀ x ∈ body, x ≠ 44 ∧ x ≠ 59 ∧ x ≠ 0) (hsep : sep = 44 ∨ sep = 59 ∨ sep = 0)
    (hn : i + body.length < n) :
    scan_value 0 n (body ++ sep :: r) i = .found (i + body.length) := by
  induction body generalizing i with
  | nil =>
    simp only [List.length_nil, Nat.add_zero] at hn
    simp [scan_value, hn, hsep]
  | cons c body ih =>
    have hc := hbody c (by simp)
    simp only [List.length_cons] at hn
    have hi : i < n := by omega
    have hc' : ¬ (c = 44 ∨ c = 59 ∨ c = 0) := by omega
    rw [List.cons_append, scan_value]
    simp only [hi, if_true, ne_eq, not_true_eq_false, if_false, hc']
    rw [ih (i + 1) (fun x hx => hbody x (by simp [hx])) (by omega)]
    simp only [List.length_cons]
    congr 1
    omega

theorem scan_value_unquoted_end (body r : List Nat) (n i : Nat)
    (hbody : ∀ x ∈ body, x ≠ 44 ∧ x ≠ 59 ∧ x ≠ 0) (hn : n = i + body.length) :
    scan_value 0 n (body ++ r) i = .notFound := by
  induction body generalizing i with
  | nil =>
    simp only [List.length_nil, Nat.add_zero] at hn
    cases r <;> simp [scan_value, hn]
  | cons c body ih =>
    have hc := hbody c (by simp)
    simp only [List.length_cons] at hn
    have hi : i < n := by omega
    have hc' : ¬ (c = 44 ∨ c = 59 ∨ c = 0) := by omega
    rw [List.cons_append, scan_value]
    simp only [hi, if_true, ne_eq, not_true_eq_false, if_false, hc']
    exact ih (i + 1) (fun x hx => hbody x (by simp [hx])) (by omega)

theorem scan_value_quoted_found (q : Nat) (body r : List Nat) (n i : Nat) (hq : q ≠ 0)
    (hbody : ∀ x ∈ body, x ≠ q ∧ x ≠ 0) (hn : i + body.length < n) :
    scan_value q n (body ++ q :: r) i = .found (i + body.length) := by
  induction body generalizing i with
  | nil =>
    simp only [List.length_nil, Nat.add_zero] at hn
    simp [scan_value, hn, hq]
  | cons c body ih =>
    have hc := hbody c (by simp)
    simp only [List.length_cons] at hn
    have hi : i < n := by omega
    rw [List.cons_append, scan_value]
    simp only [hi, if_true, ne_eq, hq, not_false_eq_true, hc.1, hc.2, if_false]
    rw [ih (i + 1) (fun x hx => hbody x (by simp [hx])) (by omega)]
    simp only [List.length_cons]
    congr 1
    omega

theorem scan_value_quoted_end (q : Nat) (body r : List Nat) (n i : Nat) (hq : q ≠ 0)
    (hbody : ∀ x ∈ body, x ≠ q ∧ x ≠ 0) (hn : n = i + body.length) :
    scan_value q n (body ++ r) i = .notFound := by
  induction body generalizing i with
  | nil =>
    simp only [List.length_nil, Nat.add_zero] at hn
    cases r <;> simp [scan_value, hn]
  | cons c body ih =>
    have hc := hbody c (by simp)
    simp only [List.length_cons] at hn
    have hi : i < n := by omega
    rw [List.cons_append, scan_value]
    simp only [hi, if_true, ne_eq, hq, not_false_eq_true, hc.1, hc.2, if_false]
    exact ih (i + 1) (fun x hx => hbody x (by simp [hx])) (by omega)

theorem scan_value_quoted_nul (q : Nat) (body r : List Nat) (n i : Nat) (hq : q ≠ 0)
    (hbody : ∀ x ∈ body, x ≠ q ∧ x ≠ 0) (hn : i + body.length < n) :
    scan_value q n (body ++ 0 :: r) i = .nulInQuote := by
  induction body generalizing i with
  | nil =>
    simp only [List.length_nil, Nat.add_zero] at hn
    simp [scan_value, hn, hq]
  | cons c body ih =>
    have hc := hbody c (by simp)
    simp only [List.length_cons] at hn
    have hi : i < n := by omega
    rw [List.cons_append, scan_value]
    simp only [hi, if_true, ne_eq, hq, not_false_eq_true, hc.1, hc.2, if_false]
    exact ih (i + 1) (fun x hx => hbody x (by simp [hx])) (by omega)

/-- The value copied for an unquoted span `body` at the head of the memory. -/
theorem take_trimmed (body r : List Nat) :
    (body ++ r).take (string_length_no_trail (body ++ r) body.length) =
      body.rdropWhile isspace := by
  rw [take_string_length_no_trail _ _ (by simp)]
  simp

/-- An unquoted value followed by `,` or `;` inside the cursor. -/
theorem take_value_unquoted_sep (kmalloc : Nat → Bool) (body : List Nat) (sep : Nat)
    (r : List Nat) (m : Nat) (hk : ∀ k, kmalloc k = true)
    (hbody : ∀ x ∈ body, x ≠ 44 ∧ x ≠ 59 ∧ x ≠ 0) (hsep : sep = 44 ∨ sep = 59) :
    take_value kmalloc 0 (body ++ sep :: r) (body.length + 1 + m) =
      .ok (body.rdropWhile isspace, r, m) := by
  have hscan := scan_value_unquoted_found body sep r (body.length + 1 + m) 0 hbody
    (by omega) (by omega)
  have hsep0 : sep ≠ 0 := by omega
  simp only [Nat.zero_add] at hscan
  simp only [take_value, hscan, hk, take_trimmed, List.drop_left,
    ulong_sub_le _ _ (show body.length ≤ body.length + 1 + m by omega)]
  have h1 : body.length + 1 + m - body.length = m + 1 := by omega
  simp [skip_separator, h1, hsep0, ulong_dec, take_trimmed]

/-- An unquoted value that runs to the end of the cursor. -/
theorem take_value_unquoted_end (kmalloc : Nat → Bool) (body r : List Nat)
    (hk : ∀ k, kmalloc k = true) (hbody : ∀ x ∈ body, x ≠ 44 ∧ x ≠ 59 ∧ x ≠ 0) :
    take_value kmalloc 0 (body ++ r) body.length = .ok (body.rdropWhile isspace, r, 0) := by
  have hscan := scan_value_unquoted_end body r body.length 0 hbody (by omega)
  simp only [take_value, hscan, hk, take_trimmed, List.drop_left, ulong_sub_le _ _ (le_refl _)]
  simp [skip_separator, take_trimmed]

/-- An unquoted value stopped by a NUL inside the cursor; the NUL is not consumed. -/
theorem take_value_unquoted_nul (kmalloc : Nat → Bool) (body r : List Nat) (m : Nat)
    (hk : ∀ k, kmalloc k = true) (hbody : ∀ x ∈ body, x ≠ 44 ∧ x ≠ 59 ∧ x ≠ 0) :
    take_value kmalloc 0 (body ++ 0 :: r) (body.length + 1 + m) =
      .ok (body.rdropWhile isspace, 0 :: r, m + 1) := by
  have hscan := scan_value_unquoted_found body 0 r (body.length + 1 + m) 0 hbody
    (by omega) (by omega)
  simp only [Nat.zero_add] at hscan
  simp only [take_value, hscan, hk, take_trimmed, List.drop_left,
    ulong_sub_le _ _ (show body.length ≤ body.length + 1 + m by omega)]
  have h1 : body.length + 1 + m - body.length = m + 1 := by omega
  simp [skip_separator, h1, take_trimmed]

/-- A quoted value whose closing quote is the last byte of the cursor. -/
theorem take_value_quoted_last (kmalloc : Nat → Bool) (q : Nat) (v r : List Nat)
    (hk : ∀ k, kmalloc k = true) (hq : q ≠ 0) (hv : ∀ x ∈ v, x ≠ q ∧ x ≠ 0) :
    take_value kmalloc q (v ++ q :: r) (v.length + 1) = .ok (v, r, 0) := by
  have hscan := scan_value_quoted_found q v r (v.length + 1) 0 hq hv (by omega)
  simp only [Nat.zero_add] at hscan
  simp only [take_value, hscan, hk, hq, List.drop_left,
    ulong_sub_le _ _ (show v.length ≤ v.length + 1 by omega)]
  simp [skip_separator, hq, ulong_dec]

/-- A quoted value with no closing quote before the end of the cursor. -/
theorem take_value_quoted_open (kmalloc : Nat → Bool) (q : Nat) (a r : List Nat)
    (hq : q ≠ 0) (ha : ∀ x ∈ a, x ≠ q ∧ x ≠ 0) :
    take_value kmalloc q (a ++ r) a.length = .error .endInQuotedValue := by
  have hscan := scan_value_quoted_end q a r a.length 0 hq ha (by omega)
  simp [take_value, hscan, hq]

/-- A quoted value with a NUL before any closing quote. -/
theorem take_value_quoted_nul (kmalloc : Nat → Bool) (q : Nat) (a r : List Nat) (n : Nat)
    (hq : q ≠ 0) (ha : ∀ x ∈ a, x ≠ q ∧ x ≠ 0) (hn : a.length < n) :
    take_value kmalloc q (a ++ 0 :: r) n = .error .endInQuotedValue := by
  have hscan := scan_value_quoted_nul q a r n 0 hq ha (by omega)
  simp [take_value, hscan]

theorem isspace_58 : isspace 58 = false := by decide

/-- Lines 341-368 on `: ws c ...` with the first non-whitespace byte `c` of the
value inside the cursor. -/
theorem after_name_eq (kmalloc : Nat → Bool) (ws : List Nat) (c : Nat) (r : List Nat) (n : Nat)
    (hws : ∀ x ∈ ws, isspace x = true) (hc : isspace c = false) (hn : ws.length + 1 < n) :
    after_name kmalloc (58 :: (ws ++ c :: r)) n =
      if c = 39 ∨ c = 34 then
        if n - ws.length - 2 = 0 then .error .endAfterQuote
        else take_value kmalloc c r (n - ws.length - 2)
      else take_value kmalloc 0 (c :: r) (n - ws.length - 1) := by
  have hd : ulong_dec n = n - 1 := ulong_dec_pos n (by omega)
  have hskip := skip_space_append .endBeforeValue ws c r (n - 1) hws hc (by omega)
  have hne : n - 1 - ws.length ≠ 0 := by omega
  have hd2 : ulong_dec (n - 1 - ws.length) = n - ws.length - 2 :=
    (ulong_dec_pos _ (by omega)).trans (by omega)
  have h3 : n - 1 - ws.length = n - ws.length - 1 := by omega
  simp only [after_name, List.tail_cons, hd, hskip, hne, if_false, hd2]
  rw [h3]

/-- Lines 299-339 on a cursor that starts with the name part `N` and its `:`:
leading whitespace is skipped, the rest of `N` is folded to upper case and
trimmed, and the scan goes on at the `:`. -/
theorem param_scan_name (kmalloc : Nat → Bool) (N r : List Nat) (n : Nat) (namesize : Int)
    (hN : ∀ x ∈ N, x ≠ 58) (hhead : N.head? ≠ some 0) (hn : N.length < n)
    (hfit : ((N.dropWhile isspace).length : Int) < namesize) :
    param_scan kmalloc (N ++ 58 :: r) n namesize =
      match after_name kmalloc (58 :: r) (n - N.length) with
      | .error e => .error e
      | .ok (value, pscan, nscan) =>
        .ok (finish_name ((N.dropWhile isspace).map toupper), value, pscan, nscan) := by
  have hsplit : N = N.takeWhile isspace ++ N.dropWhile isspace :=
    (List.takeWhile_append_dropWhile isspace N).symm
  have hlen : N.length = (N.takeWhile isspace).length + (N.dropWhile isspace).length := by
    rw [← List.length_append, List.takeWhile_append_dropWhile]
  have hraw : ∀ x ∈ N.dropWhile isspace, x ≠ 58 := fun x hx =>
    hN x ((List.dropWhile_suffix isspace).subset hx)
  -- the first byte after the leading whitespace is not whitespace
  obtain ⟨c, t, hct, hcs⟩ : ∃ c t, N.dropWhile isspace ++ 58 :: r = c :: t ∧ isspace c = false := by
    cases hdw : N.dropWhile isspace with
    | nil => exact ⟨58, r, rfl, isspace_58⟩
    | cons c t =>
      refine ⟨c, t ++ 58 :: r, rfl, ?_⟩
      have := List.head_dropWhile_not isspace N (by simp [hdw])
      simpa [hdw] using this
  have hmem : N ++ 58 :: r = N.takeWhile isspace ++ c :: t := by
    conv_lhs => rw [hsplit]
    rw [List.append_assoc, hct]
  have hskip := skip_space_append .endOfData (N.takeWhile isspace) c t n
    (fun x hx => List.mem_takeWhile_imp hx) hcs (by omega)
  have hname := scan_name_append (N.dropWhile isspace) r (n - (N.takeWhile isspace).length)
    namesize [] hraw (by omega) hfit
  have hn0 : n ≠ 0 := by omega
  have hns : ¬ (namesize - ((N.dropWhile isspace).length : Int) ≤ 0) := by omega
  have hcnt : n - (N.takeWhile isspace).length - (N.dropWhile isspace).length = n - N.length := by
    omega
  -- the byte at the cursor is not NUL
  obtain ⟨c0, t0, hc0, hc0ne⟩ : ∃ c0 t0, N ++ 58 :: r = c0 :: t0 ∧ c0 ≠ 0 := by
    cases hNc : N with
    | nil => exact ⟨58, r, rfl, by decide⟩
    | cons a b =>
      refine ⟨a, b ++ 58 :: r, rfl, ?_⟩
      intro ha
      apply hhead
      simp [hNc, ha]
  unfold param_scan
  rw [if_neg hn0, hc0]
  simp only [hc0ne, if_false]
  rw [← hc0, hmem, hskip, ← hct]
  simp only [hname, hns, if_false, hcnt, List.nil_append]

/-! ## Lemmas: `parser_param_get` on a covered cursor -/

theorem at_curr_of_covers (ctx : PARSER_CONTEXT) (pre text post : List Nat)
    (h : covers ctx pre text post) : ctx.at_curr = text ++ post := by
  obtain ⟨hd, hc, -⟩ := h
  simp [PARSER_CONTEXT.at_curr, hc, hd]

theorem parser_param_get_of_covers (kmalloc : Nat → Bool) (ctx : PARSER_CONTEXT)
    (pre text post : List Nat) (namesize : Int) (h : covers ctx pre text post) :
    parser_param_get kmalloc (some ctx) namesize =
      match param_scan kmalloc (text ++ post) text.length namesize with
      | .error e => (.null e, some ctx)
      | .ok (nam, value, pscan, nscan) =>
        (.value nam value,
          some { ctx with curr := some (ctx.data.length - pscan.length),
                          bytes_remaining := nscan }) := by
  simp only [parser_param_get, at_curr_of_covers ctx pre text post h, h.2.2]

theorem covers_advance (ctx : PARSER_CONTEXT) (pre used rest post : List Nat)
    (h : covers ctx pre (used ++ rest) post) :
    covers (advance ctx rest post) (pre ++ used) rest post := by
  obtain ⟨hd, -, -⟩ := h
  refine ⟨?_, ?_, rfl⟩
  · simp [advance, hd]
  · simp only [advance, hd, List.length_append, Option.some.injEq]
    omega

theorem rdropWhile_map_toupper (l : List Nat) :
    (l.map toupper).rdropWhile isspace = (l.rdropWhile isspace).map toupper := by
  induction l using List.reverseRecOn with
  | nil => simp
  | append_singleton l c ih =>
    rw [List.map_append, List.map_singleton]
    by_cases hc : isspace c = true
    · rw [List.rdropWhile_concat_pos _ _ _ (by rw [isspace_toupper]; exact hc),
        List.rdropWhile_concat_pos _ _ _ hc, ih]
    · rw [List.rdropWhile_concat_neg _ _ _ (by rw [isspace_toupper]; exact hc),
        List.rdropWhile_concat_neg _ _ _ hc]
      simp

/-- The name stored for a NUL-free name part: upper case, trimmed on both sides. -/
theorem finish_name_map_toupper (raw : List Nat) (h0 : ∀ x ∈ raw, x ≠ 0) :
    finish_name (raw.map toupper) = (raw.rdropWhile isspace).map toupper := by
  rw [finish_name_of_no_nul, rdropWhile_map_toupper]
  intro x hx
  obtain ⟨y, hy, rfl⟩ := List.mem_map.1 hx
  exact toupper_ne_zero y (h0 y hy)

/-- The scan of `N : ws V` where the value text `V` starts with a byte that is
neither whitespace nor a quote: the unquoted branch runs on `V`. -/
theorem param_scan_unquoted (kmalloc : Nat → Bool) (N ws : List Nat) (c : Nat)
    (rest post : List Nat) (namesize : Int)
    (hN : ∀ x ∈ N, x ≠ 58) (hhead : N.head? ≠ some 0)
    (hfit : ((N.dropWhile isspace).length : Int) < namesize)
    (hws : ∀ x ∈ ws, isspace x = true) (hc : isspace c = false) (hq : c ≠ 39 ∧ c ≠ 34) :
    param_scan kmalloc ((N ++ 58 :: (ws ++ c :: rest)) ++ post)
        (N ++ 58 :: (ws ++ c :: rest)).length namesize =
      match take_value kmalloc 0 ((c :: rest) ++ post) (c :: rest).length with
      | .error e => .error e
      | .ok (value, pscan, nscan) =>
        .ok (finish_name ((N.dropWhile isspace).map toupper), value, pscan, nscan) := by
  have hmem : (N ++ 58 :: (ws ++ c :: rest)) ++ post = N ++ 58 :: (ws ++ c :: (rest ++ post)) := by
    simp
  have hlen : (N ++ 58 :: (ws ++ c :: rest)).length = N.length + (ws.length + rest.length + 2) := by
    simp only [List.length_append, List.length_cons]; omega
  rw [hmem, hlen, param_scan_name kmalloc N _ _ namesize hN hhead (by omega) hfit]
  have hcnt : N.length + (ws.length + rest.length + 2) - N.length = ws.length + rest.length + 2 := by
    omega
  rw [hcnt, after_name_eq kmalloc ws c (rest ++ post) _ hws hc (by omega)]
  have hnq : ¬ (c = 39 ∨ c = 34) := by omega
  have h1 : ws.length + rest.length + 2 - ws.length - 1 = (c :: rest).length := by
    simp only [List.length_cons]; omega
  rw [if_neg hnq, h1]
  rfl

/-- The scan of `N : ws q R` where `q` is a quote character: the quoted branch
runs on the bytes `R` after the opening quote. -/
theorem param_scan_quoted (kmalloc : Nat → Bool) (N ws : List Nat) (q : Nat)
    (R post : List Nat) (namesize : Int)
    (hN : ∀ x ∈ N, x ≠ 58) (hhead : N.head? ≠ some 0)
    (hfit : ((N.dropWhile isspace).length : Int) < namesize)
    (hws : ∀ x ∈ ws, isspace x = true) (hq : q = 39 ∨ q = 34) :
    param_scan kmalloc ((N ++ 58 :: (ws ++ q :: R)) ++ post)
        (N ++ 58 :: (ws ++ q :: R)).length namesize =
      if R.length = 0 then .error .endAfterQuote
      else
        match take_value kmalloc q (R ++ post) R.length with
        | .error e => .error e
        | .ok (value, pscan, nscan) =>
          .ok (finish_name ((N.dropWhile isspace).map toupper), value, pscan, nscan) := by
  have hmem : (N ++ 58 :: (ws ++ q :: R)) ++ post = N ++ 58 :: (ws ++ q :: (R ++ post)) := by
    simp
  have hlen : (N ++ 58 :: (ws ++ q :: R)).length = N.length + (ws.length + R.length + 2) := by
    simp only [List.length_append, List.length_cons]; omega
  have hsp : isspace q = false := by rcases hq with h | h <;> subst h <;> decide
  rw [hmem, hlen, param_scan_name kmalloc N _ _ namesize hN hhead (by omega) hfit]
  have hcnt : N.length + (ws.length + R.length + 2) - N.length = ws.length + R.length + 2 := by
    omega
  rw [hcnt, after_name_eq kmalloc ws q (R ++ post) _ hws hsp (by omega)]
  have h1 : ws.length + R.length + 2 - ws.length - 2 = R.length := by omega
  rw [if_pos hq, h1]
  by_cases hR : R.length = 0
  · simp [hR]
  · simp only [hR, if_false]

theorem in_value_false (d : Nat) (h : in_value d = false) : d = 44 ∨ d = 59 ∨ d = 0 := by
  simp only [in_value, Bool.and_eq_false_iff, bne_eq_false_iff_eq] at h
  omega

theorem in_value_true (d : Nat) (h : in_value d = true) : d ≠ 44 ∧ d ≠ 59 ∧ d ≠ 0 := by
  simp only [in_value, Bool.and_eq_true, bne_iff_ne, ne_eq] at h
  exact ⟨h.1.1, h.1.2, h.2⟩

/-- The unquoted branch on a value text `V` that fills the rest of the cursor:
the value is the span before the first `,`, `;` or NUL, trimmed on the right. -/
theorem take_value_unquoted (kmalloc : Nat → Bool) (V post : List Nat)
    (hk : ∀ k, kmalloc k = true) :
    ∃ pscan nscan, take_value kmalloc 0 (V ++ post) V.length =
      .ok ((V.takeWhile in_value).rdropWhile isspace, pscan, nscan) := by
  have hsplit : V.takeWhile in_value ++ V.dropWhile in_value = V :=
    List.takeWhile_append_dropWhile in_value V
  have hbody : ∀ x ∈ V.takeWhile in_value, x ≠ 44 ∧ x ≠ 59 ∧ x ≠ 0 := fun x hx =>
    in_value_true x (List.mem_takeWhile_imp hx)
  cases htail : V.dropWhile in_value with
  | nil =>
    rw [htail, List.append_nil] at hsplit
    refine ⟨post, 0, ?_⟩
    have := take_value_unquoted_end kmalloc (V.takeWhile in_value) post hk hbody
    rw [hsplit] at this ⊢
    exact this
  | cons d t =>
    have hd : in_value d = false := by
      have := List.head_dropWhile_not in_value V (by simp [htail])
      simpa [htail] using this
    rw [htail] at hsplit
    have hlen : V.length = (V.takeWhile in_value).length + 1 + t.length := by
      conv_lhs => rw [← hsplit]
      simp only [List.length_append, List.length_cons]
      omega
    have hmem : V ++ post = V.takeWhile in_value ++ d :: (t ++ post) := by
      conv_lhs => rw [← hsplit]
      simp
    rw [hmem, hlen]
    by_cases hd0 : d = 0
    · subst hd0
      exact ⟨_, _, take_value_unquoted_nul kmalloc _ _ _ hk hbody⟩
    · have hsep : d = 44 ∨ d = 59 := by
        have := in_value_false d hd
        omega
      exact ⟨_, _, take_value_unquoted_sep kmalloc _ d _ _ hk hbody hsep⟩

/-- A cursor that starts with a NUL is at its end of data. -/
theorem param_scan_nul_head (kmalloc : Nat → Bool) (s : List Nat) (n : Nat) (namesize : Int)
    (h : s.head? = some 0) :
    param_scan kmalloc s n namesize = .error .endOfData := by
  cases s with
  | nil => simp at h
  | cons c t =>
    simp only [List.head?_cons, Option.some.injEq] at h
    subst h
    unfold param_scan
    split_ifs <;> simp

/-- A name part of `namesize` bytes or more is refused as too big. -/
theorem param_scan_name_too_long (kmalloc : Nat → Bool) (N r : List Nat) (n : Nat)
    (namesize : Int) (hN : ∀ x ∈ N, x ≠ 58) (hhead : N.head? ≠ some 0) (hn : N.length < n)
    (hbig : namesize ≤ ((N.dropWhile isspace).length : Int)) :
    param_scan kmalloc (N ++ 58 :: r) n namesize = .error .nameTooBig := by
  have hsplit : N = N.takeWhile isspace ++ N.dropWhile isspace :=
    (List.takeWhile_append_dropWhile isspace N).symm
  have hlen : N.length = (N.takeWhile isspace).length + (N.dropWhile isspace).length := by
    rw [← List.length_append, List.takeWhile_append_dropWhile]
  have hraw : ∀ x ∈ N.dropWhile isspace, x ≠ 58 := fun x hx =>
    hN x ((List.dropWhile_suffix isspace).subset hx)
  obtain ⟨c, t, hct, hcs⟩ : ∃ c t, N.dropWhile isspace ++ 58 :: r = c :: t ∧ isspace c = false := by
    cases hdw : N.dropWhile isspace with
    | nil => exact ⟨58, r, rfl, isspace_58⟩
    | cons c t =>
      refine ⟨c, t ++ 58 :: r, rfl, ?_⟩
      have := List.head_dropWhile_not isspace N (by simp [hdw])
      simpa [hdw] using this
  have hmem : N ++ 58 :: r = N.takeWhile isspace ++ c :: t := by
    conv_lhs => rw [hsplit]
    rw [List.append_assoc, hct]
  have hskip := skip_space_append .endOfData (N.takeWhile isspace) c t n
    (fun x hx => List.mem_takeWhile_imp hx) hcs (by omega)
  have hn0 : n ≠ 0 := by omega
  obtain ⟨c0, t0, hc0, hc0ne⟩ : ∃ c0 t0, N ++ 58 :: r = c0 :: t0 ∧ c0 ≠ 0 := by
    cases hNc : N with
    | nil => exact ⟨58, r, rfl, by decide⟩
    | cons a b =>
      refine ⟨a, b ++ 58 :: r, rfl, ?_⟩
      intro ha
      apply hhead
      simp [hNc, ha]
  unfold param_scan
  rw [if_neg hn0, hc0]
  simp only [hc0ne, if_false]
  rw [← hc0, hmem, hskip, ← hct]
  rcases scan_name_too_long (N.dropWhile isspace) r (n - (N.takeWhile isspace).length)
    namesize [] hraw (by omega) hbig with h | ⟨s', n', ns', nam', h, hle⟩
  · simp only [h]
  · simp only [h, hle, if_true]

/-- After a `NULL` return the context is the one passed in. -/
theorem parser_param_get_error (kmalloc : Nat → Bool) (ctx : PARSER_CONTEXT) (namesize : Int)
    (e : ParamNull)
    (h : param_scan kmalloc ctx.at_curr ctx.bytes_remaining namesize = .error e) :
    parser_param_get kmalloc (some ctx) namesize = (.null e, some ctx) := by
  simp only [parser_param_get, h]

theorem param_scan_ok_name (kmalloc : Nat → Bool) (s : List Nat) (n : Nat) (namesize : Int)
    (nam value pscan : List Nat) (nscan : Nat)
    (h : param_scan kmalloc s n namesize = .ok (nam, value, pscan, nscan)) :
    nam = finish_name (((s.dropWhile isspace).takeWhile (fun c => c != 58)).map toupper) := by
  unfold param_scan at h
  split_ifs at h
  split at h
  · simp at h
  · split_ifs at h
    split at h
    · simp at h
    · rename_i s1 n1 hskip
      split at h
      · simp at h
      · rename_i s2 n2 ns2 stored hname
        split_ifs at h
        split at h
        · simp at h
        · simp only [Except.ok.injEq, Prod.mk.injEq] at h
          have h1 := skip_space_ok_eq _ _ _ _ _ hskip
          have h2 := scan_name_ok_eq _ _ _ _ _ _ _ _ hname
          rw [← h.1, h2, h1]
          simp

theorem parser_param_get_value_name (kmalloc : Nat → Bool) (ctx : PARSER_CONTEXT)
    (namesize : Int) (nam value : List Nat) (r : Option PARSER_CONTEXT)
    (h : parser_param_get kmalloc (some ctx) namesize = (.value nam value, r)) :
    nam = finish_name ((name_span ctx).map toupper) := by
  simp only [parser_param_get] at h
  split at h
  · simp at h
  · rename_i nam' value' pscan nscan hok
    simp only [Prod.mk.injEq, ParamReturn.value.injEq] at h
    have := param_scan_ok_name _ _ _ _ _ _ _ _ hok
    rw [← h.1.1, this, name_span]

theorem head_not_space_of_dropWhile_eq (c : Nat) (l : List Nat)
    (h : (c :: l).dropWhile isspace = c :: l) : isspace c = false := by
  by_contra hc
  have hc' : isspace c = true := by simpa using hc
  rw [List.dropWhile_cons_of_pos hc'] at h
  have := (List.dropWhile_suffix isspace (l := l)).length_le
  rw [h] at this
  simp at this

/-- One call on a cursor that starts with a well-formed `name:value`, followed
by the end of the cursor or by `,` and further text. -/
theorem param_get_good_pair (kmalloc : Nat → Bool) (ctx : PARSER_CONTEXT)
    (pre n v T post : List Nat) (namesize : Int) (hk : ∀ k, kmalloc k = true)
    (hn : good_name namesize n) (hv : good_value v)
    (hT : T = [] ∨ ∃ t, T = 44 :: t)
    (hcov : covers ctx pre (n ++ 58 :: v ++ T) post) :
    parser_param_get kmalloc (some ctx) namesize =
      (.value (n.map toupper) v, some (advance ctx T.tail post)) := by
  obtain ⟨hnne, hnb, hntrim, hnfit⟩ := hn
  obtain ⟨hvne, hvb, hvq1, hvq2, hvtrim⟩ := hv
  obtain ⟨c, rest, rfl⟩ : ∃ c rest, v = c :: rest := by
    cases v with
    | nil => exact absurd rfl hvne
    | cons c rest => exact ⟨c, rest, rfl⟩
  have hcs : isspace c = false := head_not_space_of_dropWhile_eq c rest hvtrim.1
  have hcq : c ≠ 39 ∧ c ≠ 34 := by
    constructor
    · intro h; exact hvq1 (by simp [h])
    · intro h; exact hvq2 (by simp [h])
  have hN : ∀ x ∈ n, x ≠ 58 := fun x hx => (hnb x hx).1
  have hN0 : ∀ x ∈ n, x ≠ 0 := fun x hx => (hnb x hx).2
  have hhead : n.head? ≠ some 0 := by
    intro h
    exact hN0 0 (List.mem_of_mem_head? h) rfl
  have hfit : ((n.dropWhile isspace).length : Int) < namesize := by rw [hntrim.1]; exact hnfit
  have htext : n ++ 58 :: (c :: rest) ++ T = n ++ 58 :: ([] ++ c :: (rest ++ T)) := by simp
  have hname : finish_name ((n.dropWhile isspace).map toupper) = n.map toupper := by
    rw [hntrim.1, finish_name_map_toupper n hN0, hntrim.2]
  rw [parser_param_get_of_covers kmalloc ctx pre _ post namesize hcov, htext,
    param_scan_unquoted kmalloc n [] c (rest ++ T) post namesize hN hhead hfit (by simp) hcs hcq,
    hname]
  rcases hT with rfl | ⟨t, rfl⟩
  · have hv := take_value_unquoted_end kmalloc (c :: rest) post hk hvb
    rw [hvtrim.2] at hv
    simp only [List.append_nil, hv]
    rfl
  · have hv := take_value_unquoted_sep kmalloc (c :: rest) 44 (t ++ post) t.length hk hvb
      (Or.inl rfl)
    rw [hvtrim.2] at hv
    have hmem : c :: (rest ++ 44 :: t) ++ post = (c :: rest) ++ 44 :: (t ++ post) := by simp
    have hlen : (c :: (rest ++ 44 :: t)).length = (c :: rest).length + 1 + t.length := by
      simp only [List.length_cons, List.length_append]; omega
    rw [hmem, hlen, hv]
    rfl

/-- On an empty cursor every call returns `NULL` and nothing changes. -/
theorem param_get_calls_exhausted (kmalloc : Nat → Bool) (ctx : PARSER_CONTEXT)
    (pre post : List Nat) (namesize : Int) (j : Nat) (hcov : covers ctx pre [] post) :
    param_get_calls kmalloc namesize j (some ctx) = List.replicate j (.null .endOfData) := by
  have hcall : parser_param_get kmalloc (some ctx) namesize = (.null .endOfData, some ctx) := by
    apply parser_param_get_error
    rw [hcov.2.2]
    simp [param_scan]
  induction j with
  | zero => rfl
  | succ j ih =>
    rw [param_get_calls, hcall]
    simp only [ih, List.replicate_succ]

theorem param_get_calls_render (kmalloc : Nat → Bool) (namesize : Int)
    (ps : List (List Nat × List Nat)) (hk : ∀ k, kmalloc k = true)
    (hgood : ∀ p ∈ ps, good_name namesize p.1 ∧ good_value p.2) (j : Nat) :
    ∀ (ctx : PARSER_CONTEXT) (pre post : List Nat), covers ctx pre (render ps) post →
      param_get_calls kmalloc namesize (ps.length + j) (some ctx) =
        ps.map (fun p => ParamReturn.value (p.1.map toupper) p.2) ++
          List.replicate j (.null .endOfData) := by
  induction ps with
  | nil =>
    intro ctx pre post hcov
    simpa using param_get_calls_exhausted kmalloc ctx pre post namesize j hcov
  | cons p ps ih =>
    intro ctx pre post hcov
    have hp := hgood p (by simp)
    have hrest : ∀ p' ∈ ps, good_name namesize p'.1 ∧ good_value p'.2 := fun p' hp' =>
      hgood p' (by simp [hp'])
    have hlen : (p :: ps).length + j = (ps.length + j) + 1 := by
      simp only [List.length_cons]; omega
    cases ps with
    | nil =>
      have hcov' : covers ctx pre (p.1 ++ 58 :: p.2 ++ []) post := by
        simpa [render] using hcov
      have hcall := param_get_good_pair kmalloc ctx pre p.1 p.2 [] post namesize hk hp.1 hp.2
        (Or.inl rfl) hcov'
      have hnext : covers (advance ctx [] post) (pre ++ (p.1 ++ 58 :: p.2)) [] post :=
        covers_advance ctx pre _ [] post (by simpa using hcov')
      rw [hlen, param_get_calls, hcall]
      simp only [List.tail_nil, List.map_cons, List.cons_append]
      rw [ih hrest _ _ _ (by simpa [render] using hnext)]
    | cons q ps' =>
      have hcov' : covers ctx pre (p.1 ++ 58 :: p.2 ++ 44 :: render (q :: ps')) post := by
        simpa [render] using hcov
      have hcall := param_get_good_pair kmalloc ctx pre p.1 p.2 (44 :: render (q :: ps')) post
        namesize hk hp.1 hp.2 (Or.inr ⟨_, rfl⟩) hcov'
      have hnext : covers (advance ctx (render (q :: ps')) post)
          (pre ++ (p.1 ++ 58 :: p.2 ++ [44])) (render (q :: ps')) post :=
        covers_advance ctx pre _ _ post (by simpa using hcov')
      rw [hlen, param_get_calls, hcall]
      simp only [List.tail_cons, List.map_cons, List.cons_append]
      rw [ih hrest _ _ _ hnext]
      rfl

/-! ## Theorems: the tokenizer -/

/-- C2: when the active cursor covers exactly the text `n_1:v_1,...,n_k:v_k` of a
list of pairs (non-empty or not) whose names are non-empty, free of `:` and NUL, without
leading or trailing whitespace and shorter than the name capacity, and whose
values are non-empty, free of `,`, `;` and NUL, not starting with a quote and
without leading or trailing whitespace, then (allocations succeeding) the first
`k` calls of `parser_param_get` return `(upper(n_i), v_i)` in order and every
later call returns `NULL` as end of data. -/
theorem next_pair_yields_pairs_then_none (kmalloc : Nat → Bool) (namesize : Int)
    (ps : List (List Nat × List Nat)) (ctx : PARSER_CONTEXT) (pre post : List Nat) (j : Nat)
    (hk : ∀ k, kmalloc k = true)
    (hgood : ∀ p ∈ ps, good_name namesize p.1 ∧ good_value p.2)
    (hcov : covers ctx pre (render ps) post) :
    param_get_calls kmalloc namesize (ps.length + j) (some ctx) =
      ps.map (fun p => ParamReturn.value (p.1.map toupper) p.2) ++
        List.replicate j (.null .endOfData) :=
  param_get_calls_render kmalloc namesize ps hk hgood j ctx pre post hcov

/-- Witness for C2: `A:1,B:2,C:3` gives `(A,1)`, `(B,2)`, `(C,3)` and then
`NULL` twice. -/
theorem next_pair_yields_pairs_then_none_witness :
    param_get_calls (fun _ => true) 8 (3 + 2)
        (some (cursor_ctx [65, 58, 49, 44, 66, 58, 50, 44, 67, 58, 51] 0 11)) =
      [.value [65] [49], .value [66] [50], .value [67] [51],
        .null .endOfData, .null .endOfData] :=
  next_pair_yields_pairs_then_none (fun _ => true) 8 [([65], [49]), ([66], [50]), ([67], [51])]
    (cursor_ctx [65, 58, 49, 44, 66, 58, 50, 44, 67, 58, 51] 0 11) [] [] 2
    (fun _ => rfl) (by decide) (by decide)

/-- C7: a quoted value is returned byte for byte.  When the active cursor covers
exactly `N:qvq`, where the name part `N` has no `:`, does not start with NUL and
fits the name buffer, `q` is `'` or `"` and `v` contains neither `q` nor NUL,
`parser_param_get` returns the value `v` unchanged (allocations succeeding) and
leaves the cursor empty. -/
theorem quoted_value_verbatim (kmalloc : Nat → Bool) (ctx : PARSER_CONTEXT)
    (pre N v post : List Nat) (q : Nat) (namesize : Int) (hk : ∀ k, kmalloc k = true)
    (hN : ∀ x ∈ N, x ≠ 58) (hhead : N.head? ≠ some 0)
    (hfit : ((N.dropWhile isspace).length : Int) < namesize)
    (hq : q = 39 ∨ q = 34) (hv : ∀ x ∈ v, x ≠ q ∧ x ≠ 0)
    (hcov : covers ctx pre (N ++ 58 :: q :: (v ++ [q])) post) :
    parser_param_get kmalloc (some ctx) namesize =
        (.value (finish_name ((N.dropWhile isspace).map toupper)) v,
          some (advance ctx [] post)) ∧
      (advance ctx [] post).bytes_remaining = 0 := by
  have hq0 : q ≠ 0 := by omega
  have htext : N ++ 58 :: q :: (v ++ [q]) = N ++ 58 :: ([] ++ q :: (v ++ [q])) := by simp
  have hval := take_value_quoted_last kmalloc q v post hk hq0 hv
  have hmem : v ++ [q] ++ post = v ++ q :: post := by simp
  have hlen : (v ++ [q]).length = v.length + 1 := by simp
  refine ⟨?_, rfl⟩
  rw [parser_param_get_of_covers kmalloc ctx pre _ post namesize hcov, htext,
    param_scan_quoted kmalloc N [] q (v ++ [q]) post namesize hN hhead hfit (by simp) hq]
  rw [if_neg (by rw [hlen]; omega), hmem, hlen, hval]
  rfl

/-- Witness for C7: `KEY:'hello, world'` gives `(KEY, "hello, world")`. -/
theorem quoted_value_verbatim_witness :
    parser_param_get (fun _ => true)
        (some (cursor_ctx [75, 69, 89, 58, 39, 104, 101, 108, 108, 111, 44, 32, 119, 111, 114,
          108, 100, 39] 0 18)) 8 =
      (.value [75, 69, 89] [104, 101, 108, 108, 111, 44, 32, 119, 111, 114, 108, 100],
        some (cursor_ctx [75, 69, 89, 58, 39, 104, 101, 108, 108, 111, 44, 32, 119, 111, 114,
          108, 100, 39] 18 0)) :=
  (quoted_value_verbatim (fun _ => true)
    (cursor_ctx [75, 69, 89, 58, 39, 104, 101, 108, 108, 111, 44, 32, 119, 111, 114,
      108, 100, 39] 0 18)
    [] [75, 69, 89] [104, 101, 108, 108, 111, 44, 32, 119, 111, 114, 108, 100] [] 39 8
    (fun _ => rfl) (by decide) (by decide) (by decide) (by decide) (by decide) (by decide)).1

/-- C8: an unquoted value is trimmed on both sides.  When the active cursor
covers exactly `N:` followed by whitespace `ws` and a text whose first byte `c`
is neither whitespace nor a quote (with `N` free of `:`, not starting with NUL
and fitting the name buffer, allocations succeeding), the value returned is the
span from `c` up to the first `,`, `;` or NUL, or to the end of the cursor, with
its trailing whitespace removed. -/
theorem unquoted_value_trimmed (kmalloc : Nat → Bool) (ctx : PARSER_CONTEXT)
    (pre N ws rest post : List Nat) (c : Nat) (namesize : Int) (hk : ∀ k, kmalloc k = true)
    (hN : ∀ x ∈ N, x ≠ 58) (hhead : N.head? ≠ some 0)
    (hfit : ((N.dropWhile isspace).length : Int) < namesize)
    (hws : ∀ x ∈ ws, isspace x = true) (hc : isspace c = false) (hq : c ≠ 39 ∧ c ≠ 34)
    (hcov : covers ctx pre (N ++ 58 :: (ws ++ c :: rest)) post) :
    ∃ ctx', parser_param_get kmalloc (some ctx) namesize =
      (.value (finish_name ((N.dropWhile isspace).map toupper))
        (((c :: rest).takeWhile in_value).rdropWhile isspace), some ctx') := by
  obtain ⟨pscan, nscan, hval⟩ := take_value_unquoted kmalloc (c :: rest) post hk
  refine ⟨{ ctx with curr := some (ctx.data.length - pscan.length),
                      bytes_remaining := nscan }, ?_⟩
  rw [parser_param_get_of_covers kmalloc ctx pre _ post namesize hcov,
    param_scan_unquoted kmalloc N ws c rest post namesize hN hhead hfit hws hc hq, hval]

/-- Witness for C8: `KEY:  value  ,` gives `(KEY, "value")`. -/
theorem unquoted_value_trimmed_witness :
    ∃ ctx', parser_param_get (fun _ => true)
        (some (cursor_ctx [75, 69, 89, 58, 32, 32, 118, 97, 108, 117, 101, 32, 32, 44] 0 14)) 8 =
      (.value [75, 69, 89] [118, 97, 108, 117, 101], some ctx') :=
  unquoted_value_trimmed (fun _ => true)
    (cursor_ctx [75, 69, 89, 58, 32, 32, 118, 97, 108, 117, 101, 32, 32, 44] 0 14)
    [] [75, 69, 89] [32, 32] [97, 108, 117, 101, 32, 32, 44] [] 118 8
    (fun _ => rfl) (by decide) (by decide) (by decide) (by decide) (by decide) (by decide)
    (by decide)

/-- The quoted branch on bytes `rest` that fill the rest of the cursor and hold
no closing quote before their first NUL or their end. -/
theorem take_value_unterminated (kmalloc : Nat → Bool) (q : Nat) (rest post : List Nat)
    (hq : q ≠ 0)
    (hrest : (∀ x ∈ rest, x ≠ q) ∨ ∃ a b, rest = a ++ 0 :: b ∧ ∀ x ∈ a, x ≠ q) :
    take_value kmalloc q (rest ++ post) rest.length = .error .endInQuotedValue := by
  have hsplit : rest.takeWhile (fun x => x != q && x != 0) ++
      rest.dropWhile (fun x => x != q && x != 0) = rest := List.takeWhile_append_dropWhile _ rest
  have ha : ∀ x ∈ rest.takeWhile (fun x => x != q && x != 0), x ≠ q ∧ x ≠ 0 := by
    intro x hx
    have := List.mem_takeWhile_imp hx
    simpa using this
  cases htail : rest.dropWhile (fun x => x != q && x != 0) with
  | nil =>
    rw [htail, List.append_nil] at hsplit
    have := take_value_quoted_open kmalloc q _ post hq ha
    rw [hsplit] at this
    exact this
  | cons d t =>
    have hd : (fun x => x != q && x != 0) d = false := by
      have := List.head_dropWhile_not (fun x => x != q && x != 0) rest (by simp [htail])
      simpa [htail] using this
    rw [htail] at hsplit
    have hd0 : d = 0 := by
      by_contra hne
      have hdq : d = q := by
        simp only [Bool.and_eq_false_iff, bne_eq_false_iff_eq] at hd
        rcases hd with h | h
        · exact h
        · exact absurd h hne
      subst hdq
      rcases hrest with h | ⟨a0, b0, hab, ha0⟩
      · exact h d (by rw [← hsplit]; simp) rfl
      · have hsp2 := hsplit.trans hab
        rcases List.append_eq_append_iff.1 hsp2 with ⟨a', h1, h2⟩ | ⟨c', h1, h2⟩
        · cases a' with
          | nil =>
            simp only [List.nil_append, List.cons.injEq] at h2
            exact hne h2.1
          | cons x xs =>
            simp only [List.cons_append, List.cons.injEq] at h2
            exact ha0 d (by rw [h1]; simp [h2.1]) rfl
        · cases c' with
          | nil =>
            simp only [List.nil_append, List.cons.injEq] at h2
            exact hne h2.1.symm
          | cons x xs =>
            simp only [List.cons_append, List.cons.injEq] at h2
            have hx0 : x = 0 := h2.1.symm
            have hmem : x ∈ rest.takeWhile (fun x => x != d && x != 0) := by
              rw [h1]; simp
            exact (ha x hmem).2 hx0
    subst hd0
    have hlen : (rest.takeWhile (fun x => x != q && x != 0)).length < rest.length := by
      conv_rhs => rw [← hsplit]
      simp
    have hmem : rest ++ post = rest.takeWhile (fun x => x != q && x != 0) ++ 0 :: (t ++ post) := by
      conv_lhs => rw [← hsplit]
      simp
    rw [hmem]
    exact take_value_quoted_nul kmalloc q _ _ _ hq ha hlen

/-- C9: a quoted value that is not closed fails.  When the active cursor covers
exactly `N:`, whitespace, a quote character `q` and bytes `rest` in which `q`
does not occur again or occurs only after a NUL, `parser_param_get` returns
`NULL` and leaves the context as it was; when the name part is accepted (it does
not start with NUL and fits the name buffer) the `NULL` is the unterminated-quote
one of lines 364, 376 and 392. -/
theorem unterminated_quote_fails (kmalloc : Nat → Bool) (ctx : PARSER_CONTEXT)
    (pre N ws rest post : List Nat) (q : Nat) (namesize : Int)
    (hN : ∀ x ∈ N, x ≠ 58) (hws : ∀ x ∈ ws, isspace x = true) (hq : q = 39 ∨ q = 34)
    (hrest : (∀ x ∈ rest, x ≠ q) ∨ ∃ a b, rest = a ++ 0 :: b ∧ ∀ x ∈ a, x ≠ q)
    (hcov : covers ctx pre (N ++ 58 :: (ws ++ q :: rest)) post) :
    ∃ e, parser_param_get kmalloc (some ctx) namesize = (.null e, some ctx) ∧
      (N.head? ≠ some 0 → ((N.dropWhile isspace).length : Int) < namesize →
        e = .endAfterQuote ∨ e = .endInQuotedValue) := by
  have hq0 : q ≠ 0 := by omega
  rw [parser_param_get_of_covers kmalloc ctx pre _ post namesize hcov]
  by_cases hhead : N.head? = some 0
  · refine ⟨.endOfData, ?_, fun h => absurd hhead h⟩
    rw [param_scan_nul_head]
    cases N with
    | nil => simp at hhead
    | cons a b => simpa using hhead
  · by_cases hfit : ((N.dropWhile isspace).length : Int) < namesize
    · rw [param_scan_quoted kmalloc N ws q rest post namesize hN hhead hfit hws hq]
      by_cases hR : rest.length = 0
      · exact ⟨.endAfterQuote, by simp [hR], fun _ _ => Or.inl rfl⟩
      · refine ⟨.endInQuotedValue, ?_, fun _ _ => Or.inr rfl⟩
        rw [if_neg hR, take_value_unterminated kmalloc q rest post hq0 hrest]
    · refine ⟨.nameTooBig, ?_, fun _ h => absurd h hfit⟩
      have hmem : (N ++ 58 :: (ws ++ q :: rest)) ++ post =
          N ++ 58 :: (ws ++ q :: rest ++ post) := by simp
      rw [hmem, param_scan_name_too_long kmalloc N _ _ namesize hN hhead (by simp) (by omega)]

/-- Witness for C9: `KEY:'unterminated` fails. -/
theorem unterminated_quote_fails_witness :
    ∃ e, parser_param_get (fun _ => true)
        (some (cursor_ctx [75, 69, 89, 58, 39, 117, 110, 116, 101, 114, 109, 105, 110, 97, 116,
          101, 100] 0 17)) 8 =
        (.null e, some (cursor_ctx [75, 69, 89, 58, 39, 117, 110, 116, 101, 114, 109, 105, 110,
          97, 116, 101, 100] 0 17)) ∧
      (([75, 69, 89] : List Nat).head? ≠ some 0 →
        ((([75, 69, 89] : List Nat).dropWhile isspace).length : Int) < 8 →
        e = .endAfterQuote ∨ e = .endInQuotedValue) :=
  unterminated_quote_fails (fun _ => true)
    (cursor_ctx [75, 69, 89, 58, 39, 117, 110, 116, 101, 114, 109, 105, 110, 97, 116, 101, 100]
      0 17)
    [] [75, 69, 89] [] [117, 110, 116, 101, 114, 109, 105, 110, 97, 116, 101, 100] [] 39 8
    (by decide) (by decide) (by decide) (Or.inl (by decide)) (by decide)

/-- C10: whenever `parser_param_get` returns a value, the name it leaves in the
caller's buffer is the NUL-free span between the leading whitespace and the
first `:`, with every ASCII lower-case letter folded to upper case and the
trailing whitespace removed; two inputs whose spans differ only in letter case
therefore give the same name. -/
theorem name_folded_and_trimmed (kmalloc kmalloc' : Nat → Bool) (ctx ctx' : PARSER_CONTEXT)
    (namesize namesize' : Int) (nam value nam' value' : List Nat)
    (r r' : Option PARSER_CONTEXT)
    (h : parser_param_get kmalloc (some ctx) namesize = (.value nam value, r))
    (hnul : ∀ x ∈ name_span ctx, x ≠ 0) :
    nam = ((name_span ctx).map toupper).rdropWhile isspace ∧
    nam = ((name_span ctx).rdropWhile isspace).map
      (fun c => if 97 ≤ c ∧ c ≤ 122 then c - 32 else c) ∧
    (parser_param_get kmalloc' (some ctx') namesize' = (.value nam' value', r') →
      (∀ x ∈ name_span ctx', x ≠ 0) →
      (name_span ctx').map toupper = (name_span ctx).map toupper → nam' = nam) := by
  have h1 := parser_param_get_value_name kmalloc ctx namesize nam value r h
  have h2 := finish_name_map_toupper (name_span ctx) hnul
  refine ⟨?_, ?_, ?_⟩
  · rw [h1, h2, rdropWhile_map_toupper]
  · rw [h1, h2]
    rfl
  · intro h' hnul' heq
    have h1' := parser_param_get_value_name kmalloc' ctx' namesize' nam' value' r' h'
    rw [h1', h1, heq]

/-- Witness for C10: `key:1` gives the name `KEY`, as `KEY:1` does. -/
theorem name_folded_and_trimmed_witness :
    ([75, 69, 89] : List Nat) =
        ((name_span (cursor_ctx [107, 101, 121, 58, 49] 0 5)).map toupper).rdropWhile isspace ∧
    ([75, 69, 89] : List Nat) =
      ((name_span (cursor_ctx [107, 101, 121, 58, 49] 0 5)).rdropWhile isspace).map
        (fun c => if 97 ≤ c ∧ c ≤ 122 then c - 32 else c) ∧
    (parser_param_get (fun _ => true) (some (cursor_ctx [75, 69, 89, 58, 49] 0 5)) 8 =
        (.value [75, 69, 89] [49], some (cursor_ctx [75, 69, 89, 58, 49] 5 0)) →
      (∀ x ∈ name_span (cursor_ctx [75, 69, 89, 58, 49] 0 5), x ≠ 0) →
      (name_span (cursor_ctx [75, 69, 89, 58, 49] 0 5)).map toupper =
        (name_span (cursor_ctx [107, 101, 121, 58, 49] 0 5)).map toupper →
      ([75, 69, 89] : List Nat) = [75, 69, 89]) :=
  name_folded_and_trimmed (fun _ => true) (fun _ => true)
    (cursor_ctx [107, 101, 121, 58, 49] 0 5) (cursor_ctx [75, 69, 89, 58, 49] 0 5) 8 8
    [75, 69, 89] [49] [75, 69, 89] [49]
    (some (cursor_ctx [107, 101, 121, 58, 49] 5 0)) (some (cursor_ctx [75, 69, 89, 58, 49] 5 0))
    (by rfl) (by decide)



/-! ## Theorems: what a successful create returns -/

theorem copy_in_length (n : Nat) (src : List Nat) : (copy_in n src).length = n := by
  simp only [copy_in, List.length_append, List.length_take, List.length_replicate]
  omega

theorem fetch_payload_error (env : Env) (addr bytes : Nat) (isLocal : Bool) (e : InitError)
    (h : fetch_payload env addr bytes isLocal = .error e) :
    e = .InvalidAddress ∨ e = .TransportError := by
  simp only [fetch_payload] at h
  split_ifs at h
  · simp only [Except.error.injEq] at h; exact Or.inl h.symm
  · simp only [Except.error.injEq] at h; exact Or.inr h.symm
  · split at h
    · simp only [Except.error.injEq] at h; exact Or.inr h.symm
    · simp at h

theorem init_validate_tryAgain (lay : HeaderLayout) (buffered bytes : Nat) (hdr : Bool)
    (ctx : PARSER_CONTEXT) (tryAgain : Option Bool) :
    (init_validate lay buffered bytes hdr ctx tryAgain).tryAgain = tryAgain ∧
      (init_validate lay buffered bytes hdr ctx tryAgain).rc ≠ .error .Throttled ∧
      (init_validate lay buffered bytes hdr ctx tryAgain).rc ≠ .error .AllocationFailed := by
  simp only [init_validate]
  split_ifs <;> simp [init_fail, init_ok]

/-- What `init_validate` returns when it returns a context. -/
theorem init_validate_ok_shape (lay : HeaderLayout) (buffered bytes : Nat) (hdr : Bool)
    (ctx c : PARSER_CONTEXT) (tryAgain : Option Bool)
    (h : (init_validate lay buffered bytes hdr ctx tryAgain).rc = .ok c) :
    c = { ctx with byte_stream := (!hdr) || ctx.byte_stream } ∧
      (hdr = true → (lay.cast ctx.data).TotalLength = bytes ∧
        (lay.cast ctx.data).HeaderLength ≤ (lay.cast ctx.data).TotalLength ∧
        lay.size ≤ (lay.cast ctx.data).HeaderLength) := by
  simp only [init_validate] at h
  split_ifs at h with h0 h1 h2 h3
  · simp only [init_ok, Except.ok.injEq] at h
    subst h
    simp only [Bool.not_eq_true'] at h0
    simp [h0]
  · simp [init_fail] at h
  · simp [init_fail] at h
  · simp [init_fail] at h
  · simp only [init_ok, Except.ok.injEq] at h
    subst h
    simp only [Bool.not_eq_true', Bool.not_eq_false] at h0
    refine ⟨by simp [h0], fun _ => ⟨?_, ?_, ?_⟩⟩
    · simpa using h1
    · omega
    · omega

/-- The context returned by a successful `parser_init_guts`: the payload that was
fetched, copied into a zeroed buffer of `bytes` bytes (one more in byte-stream
mode), with an unset cursor. -/
theorem parser_init_guts_ok_shape (env : Env) (lay : HeaderLayout)
    (buffered addr bytes : Nat) (isLocal hdr : Bool) (tryAgain : Option Bool)
    (c : PARSER_CONTEXT)
    (hok : (parser_init_guts env lay buffered addr bytes isLocal hdr tryAgain).rc = .ok c) :
    ∃ src, fetch_payload env addr bytes isLocal = .ok src ∧
      c.data = copy_in bytes src ++ List.replicate (if hdr = true then 0 else 1) 0 ∧
      c.param_bytes = bytes ∧ c.curr = none ∧ c.bytes_remaining = 0 ∧
      c.byte_stream = !hdr ∧
      (hdr = true → (lay.cast c.data).TotalLength = bytes ∧
        (lay.cast c.data).HeaderLength ≤ (lay.cast c.data).TotalLength ∧
        lay.size ≤ (lay.cast c.data).HeaderLength) := by
  simp only [parser_init_guts] at hok
  split_ifs at hok
  all_goals
    cases hf : fetch_payload env addr bytes isLocal with
    | error e => rw [hf] at hok; simp [init_fail] at hok
    | ok src =>
      rw [hf] at hok
      obtain ⟨hc, hhdr⟩ := init_validate_ok_shape _ _ _ _ _ _ _ hok
      refine ⟨src, rfl, ?_⟩
      subst hc
      first
        | (simp_all; done)
        | (simp_all; omega)

/-- C11: a payload of `bytes` bytes ingested by `parser_init_byteStream` leaves
a buffer that holds the `bytes` payload bytes followed by one zero byte, and
`parser_simpleString_get` returns that buffer, whose string is the payload up to
its first NUL: the whole payload when it holds no NUL. -/
theorem byte_stream_round_trip (env : Env) (lay : HeaderLayout)
    (buffered addr bytes : Nat) (isLocal : Bool) (tryAgain : Option Bool) (c : PARSER_CONTEXT)
    (hok : (parser_init_byteStream env lay buffered addr bytes isLocal tryAgain).rc = .ok c) :
    ∃ src, fetch_payload env addr bytes isLocal = .ok src ∧
      (copy_in bytes src).length = bytes ∧
      c.data = copy_in bytes src ++ [0] ∧
      parser_simpleString_get c = some c.data ∧
      c_string c.data = (copy_in bytes src).takeWhile (fun b => b != 0) ∧
      ((∀ b ∈ copy_in bytes src, b ≠ 0) → c_string c.data = copy_in bytes src) := by
  obtain ⟨src, hsrc, hdata, -, -, -, hbs, -⟩ :=
    parser_init_guts_ok_shape env lay buffered addr bytes isLocal false tryAgain c hok
  have hdata' : c.data = copy_in bytes src ++ [0] := by simpa using hdata
  have hbs' : c.byte_stream = true := by simpa using hbs
  have hsplit : copy_in bytes src =
      (copy_in bytes src).takeWhile (fun b => b != 0) ++
        (copy_in bytes src).dropWhile (fun b => b != 0) :=
    (List.takeWhile_append_dropWhile _ _).symm
  have hstr : c_string c.data = (copy_in bytes src).takeWhile (fun b => b != 0) := by
    have hno : ∀ x ∈ (copy_in bytes src).takeWhile (fun b => b != 0), x ≠ 0 := by
      intro x hx
      simpa using List.mem_takeWhile_imp hx
    rw [hdata']
    cases htail : (copy_in bytes src).dropWhile (fun b => b != 0) with
    | nil =>
      rw [htail, List.append_nil] at hsplit
      have := c_string_of_no_nul _ [] hno
      rw [← hsplit] at this ⊢
      exact this
    | cons d t =>
      have hd : d = 0 := by
        have := List.head_dropWhile_not (fun b => b != 0) (copy_in bytes src) (by simp [htail])
        simpa [htail] using this
      subst hd
      rw [htail] at hsplit
      have := c_string_of_no_nul _ (t ++ [0]) hno
      conv_lhs => rw [hsplit]
      simpa using this
  refine ⟨src, hsrc, copy_in_length bytes src, hdata', ?_, hstr, ?_⟩
  · simp [parser_simpleString_get, hbs']
  · intro hno
    rw [hdata']
    exact c_string_of_no_nul _ [] hno

/-- Witness for C11: the five bytes "hello" give the string "hello". -/
theorem byte_stream_round_trip_witness :
    ∃ src, fetch_payload (demo_env [104, 101, 108, 108, 111]) 0 5 true = .ok src ∧
      (copy_in 5 src).length = 5 ∧
      hello_ctx.data = copy_in 5 src ++ [0] ∧
      parser_simpleString_get hello_ctx = some hello_ctx.data ∧
      c_string hello_ctx.data = (copy_in 5 src).takeWhile (fun b => b != 0) ∧
      ((∀ b ∈ copy_in 5 src, b ≠ 0) → c_string hello_ctx.data = copy_in 5 src) :=
  byte_stream_round_trip (demo_env [104, 101, 108, 108, 111]) demo_layout 0 0 5 true none
    hello_ctx (by rfl)

/-- The flag behind a given `tryAgain` pointer, by the exit taken: `TRUE` exactly
for the throttle exit and the failed-allocation exit. -/
theorem retry_flag_by_exit (env : Env) (lay : HeaderLayout)
    (buffered addr bytes : Nat) (isLocal hdr : Bool) (flag : Bool) :
    ((parser_init_guts env lay buffered addr bytes isLocal hdr (some flag)).tryAgain = some true ↔
      ((parser_init_guts env lay buffered addr bytes isLocal hdr (some flag)).rc =
          .error .Throttled ∨
        (parser_init_guts env lay buffered addr bytes isLocal hdr (some flag)).rc =
          .error .AllocationFailed)) ∧
    (¬ ((parser_init_guts env lay buffered addr bytes isLocal hdr (some flag)).rc =
          .error .Throttled ∨
        (parser_init_guts env lay buffered addr bytes isLocal hdr (some flag)).rc =
          .error .AllocationFailed) →
      (parser_init_guts env lay buffered addr bytes isLocal hdr (some flag)).tryAgain =
        some false) := by
  rcases parser_init_guts_cases env lay buffered addr bytes isLocal hdr (some flag) with
    ⟨-, hr⟩ | ⟨-, hr⟩ | ⟨-, hr⟩ | ⟨-, e, ctx, hf, -, hr⟩ | ⟨-, -, src, ctx, -, -, hr⟩
  · rw [hr]; simp
  · rw [hr]; simp
  · rw [hr]; simp
  · rw [hr]
    rcases fetch_payload_error env addr bytes isLocal e hf with rfl | rfl <;> simp [init_fail]
  · rw [hr]
    obtain ⟨h1, h2, h3⟩ := init_validate_tryAgain lay buffered bytes hdr ctx (some false)
    simp only [Option.map_some']
    refine ⟨⟨fun h => ?_, fun h => ?_⟩, fun _ => h1⟩
    · rw [h1] at h; simp at h
    · rcases h with h | h
      · exact absurd h h2
      · exact absurd h h3

/-- C19: a context returned by `parser_init` declares at least
`sizeof(ULTRA_CONTROLVM_PARAMETERS_HEADER)` payload bytes and its buffer holds
exactly that many ingested bytes, so the fixed header lies inside them; a payload
shorter than the header is never accepted. -/
theorem accepted_payload_holds_header (env : Env) (lay : HeaderLayout)
    (buffered addr bytes : Nat) (isLocal : Bool) (tryAgain : Option Bool) :
    (∀ c, (parser_init env lay buffered addr bytes isLocal tryAgain).rc = .ok c →
      c.param_bytes = bytes ∧ c.data.length = bytes ∧ lay.size ≤ c.param_bytes ∧
        lay.size ≤ c.data.length) ∧
    (bytes < lay.size → (parser_init env lay buffered addr bytes isLocal tryAgain).ctx = none) := by
  have key : ∀ c, (parser_init env lay buffered addr bytes isLocal tryAgain).rc = .ok c →
      c.param_bytes = bytes ∧ c.data.length = bytes ∧ lay.size ≤ c.param_bytes ∧
        lay.size ≤ c.data.length := by
    intro c hok
    obtain ⟨src, -, hdata, hpb, -, -, -, hhdr⟩ :=
      parser_init_guts_ok_shape env lay buffered addr bytes isLocal true tryAgain c hok
    obtain ⟨h1, h2, h3⟩ := hhdr rfl
    have hlen : c.data.length = bytes := by
      rw [hdata]; simp [copy_in_length]
    refine ⟨hpb, hlen, ?_, ?_⟩ <;> omega
  refine ⟨key, ?_⟩
  intro hlt
  cases hrc : (parser_init env lay buffered addr bytes isLocal tryAgain).rc with
  | error e => simp [InitResult.ctx, hrc]
  | ok c =>
    have := key c hrc
    omega

/-- Witness for C19: the accepted 64-byte bare header. -/
theorem accepted_payload_holds_header_witness :
    ∃ c, (parser_init (demo_env (demo_header 64 64)) demo_layout 0 0 64 true none).rc = .ok c ∧
      c.param_bytes = 64 ∧ c.data.length = 64 ∧ demo_layout.size ≤ c.param_bytes ∧
        demo_layout.size ≤ c.data.length :=
  ⟨_, rfl, (accepted_payload_holds_header (demo_env (demo_header 64 64)) demo_layout 0 0 64
    true none).1 _ rfl⟩

/-! ## Theorems: end of data, field selection, string extraction -/

/-- C12: on a context whose cursor is empty, or whose byte at the cursor is NUL,
`parser_param_get` returns `NULL` without a diagnostic and leaves the context,
cursor included, as it was; hence every later call returns `NULL` as well. -/
theorem end_of_data_stable (kmalloc : Nat → Bool) (ctx : PARSER_CONTEXT) (namesize : Int)
    (h : ctx.bytes_remaining = 0 ∨ ctx.at_curr.head? = some 0) :
    parser_param_get kmalloc (some ctx) namesize = (.null .endOfData, some ctx) ∧
    ∀ j, param_get_calls kmalloc namesize j (some ctx) =
      List.replicate j (.null .endOfData) := by
  have hcall : parser_param_get kmalloc (some ctx) namesize = (.null .endOfData, some ctx) := by
    apply parser_param_get_error
    rcases h with h | h
    · simp [param_scan, h]
    · exact param_scan_nul_head kmalloc _ _ _ h
  refine ⟨hcall, fun j => ?_⟩
  induction j with
  | zero => rfl
  | succ j ih =>
    rw [param_get_calls, hcall]
    simp only [ih, List.replicate_succ]

/-- Witness for C12: the cursor `A:1` followed by a NUL, after the pair was
taken: the cursor stands at the NUL with one byte left. -/
theorem end_of_data_stable_witness :
    parser_param_get (fun _ => true) (some (cursor_ctx [65, 58, 49, 0] 3 1)) 8 =
      (.null .endOfData, some (cursor_ctx [65, 58, 49, 0] 3 1)) ∧
    ∀ j, param_get_calls (fun _ => true) 8 j (some (cursor_ctx [65, 58, 49, 0] 3 1)) =
      List.replicate j (.null .endOfData) :=
  end_of_data_stable (fun _ => true) (cursor_ctx [65, 58, 49, 0] 3 1) 8 (Or.inr (by decide))

/-- C17: for each of the four field kinds `parser_param_start` stores the
offset and length of that header entry in the cursor, whatever their values (no
comparison with the buffer is made), and leaves `data`, `param_bytes`,
`allocbytes` and `byte_stream` as they were; for any other value of
`which_string` the context is returned unchanged. -/
theorem param_start_sets_cursor_only (lay : HeaderLayout) (c : PARSER_CONTEXT) (v : Int) :
    parser_param_start lay (some c) .PARSERSTRING_INITIATOR =
      some { allocbytes := c.allocbytes, param_bytes := c.param_bytes,
             curr := some (lay.cast c.data).InitiatorOffset,
             bytes_remaining := (lay.cast c.data).InitiatorLength,
             byte_stream := c.byte_stream, data := c.data } ∧
    parser_param_start lay (some c) .PARSERSTRING_TARGET =
      some { allocbytes := c.allocbytes, param_bytes := c.param_bytes,
             curr := some (lay.cast c.data).TargetOffset,
             bytes_remaining := (lay.cast c.data).TargetLength,
             byte_stream := c.byte_stream, data := c.data } ∧
    parser_param_start lay (some c) .PARSERSTRING_CONNECTION =
      some { allocbytes := c.allocbytes, param_bytes := c.param_bytes,
             curr := some (lay.cast c.data).ConnectionOffset,
             bytes_remaining := (lay.cast c.data).ConnectionLength,
             byte_stream := c.byte_stream, data := c.data } ∧
    parser_param_start lay (some c) .PARSERSTRING_NAME =
      some { allocbytes := c.allocbytes, param_bytes := c.param_bytes,
             curr := some (lay.cast c.data).NameOffset,
             bytes_remaining := (lay.cast c.data).NameLength,
             byte_stream := c.byte_stream, data := c.data } ∧
    parser_param_start lay (some c) (.other v) = some c :=
  ⟨rfl, rfl, rfl, rfl, rfl⟩

theorem scan_nul_found (a r : List Nat) (n i : Nat) (ha : ∀ x ∈ a, x ≠ 0)
    (hn : i + a.length < n) : scan_nul n (a ++ 0 :: r) i = .found (i + a.length) := by
  induction a generalizing i with
  | nil =>
    simp only [List.length_nil, Nat.add_zero] at hn
    simp [scan_nul, hn]
  | cons c a ih =>
    have hc : c ≠ 0 := ha c (by simp)
    simp only [List.length_cons] at hn
    have hi : i < n := by omega
    rw [List.cons_append, scan_nul]
    simp only [hi, if_true, hc, if_false]
    rw [ih (i + 1) (fun x hx => ha x (by simp [hx])) (by omega)]
    simp only [List.length_cons]
    congr 1
    omega

theorem scan_nul_end (a r : List Nat) (n i : Nat) (ha : ∀ x ∈ a, x ≠ 0)
    (hn : n = i + a.length) : scan_nul n (a ++ r) i = .notFound := by
  induction a generalizing i with
  | nil =>
    simp only [List.length_nil, Nat.add_zero] at hn
    cases r <;> simp [scan_nul, hn]
  | cons c a ih =>
    have hc : c ≠ 0 := ha c (by simp)
    simp only [List.length_cons] at hn
    have hi : i < n := by omega
    rw [List.cons_append, scan_nul]
    simp only [hi, if_true, hc, if_false]
    exact ih (i + 1) (fun x hx => ha x (by simp [hx])) (by omega)

/-- C18: on a context whose cursor covers the non-empty bytes `text`,
`parser_string_get` returns (allocation succeeding) a copy of `text` up to, and
not including, its first NUL, or of all of `text` when it holds no NUL; the copy
holds no NUL and is no longer than the cursor.  On an empty cursor it returns
`NULL`. -/
theorem string_get_up_to_nul (kmalloc : Nat → Bool) (ctx : PARSER_CONTEXT)
    (pre text post : List Nat) (hk : ∀ k, kmalloc k = true) (hne : text ≠ [])
    (hcov : covers ctx pre text post) :
    parser_string_get kmalloc (some ctx) = .ok (text.takeWhile (fun b => b != 0)) ∧
    (∀ b ∈ text.takeWhile (fun b => b != 0), b ≠ 0) ∧
    (text.takeWhile (fun b => b != 0)).length ≤ ctx.bytes_remaining ∧
    ((∀ b ∈ text, b ≠ 0) → parser_string_get kmalloc (some ctx) = .ok text) ∧
    (∀ ctx' : PARSER_CONTEXT, ctx'.bytes_remaining = 0 →
      parser_string_get kmalloc (some ctx') = .error .endOfData) := by
  obtain ⟨hdata, hcurr, hrem⟩ := hcov
  have hno : ∀ b ∈ text.takeWhile (fun b => b != 0), b ≠ 0 := by
    intro b hb
    simpa using List.mem_takeWhile_imp hb
  have hsplit : text.takeWhile (fun b => b != 0) ++ text.dropWhile (fun b => b != 0) = text :=
    List.takeWhile_append_dropWhile _ text
  have hlen : (text.takeWhile (fun b => b != 0)).length ≤ text.length :=
    (List.takeWhile_prefix (fun b => b != 0)).length_le
  have hrem0 : ctx.bytes_remaining ≠ 0 := by
    rw [hrem]
    intro h0
    exact hne (List.length_eq_zero.1 h0)
  have hdrop : ctx.data.drop pre.length = text ++ post := by simp [hdata]
  have hmain : parser_string_get kmalloc (some ctx) =
      .ok (text.takeWhile (fun b => b != 0)) := by
    simp only [parser_string_get, hrem0, if_false, hcurr, hdrop, hrem]
    cases htail : text.dropWhile (fun b => b != 0) with
    | nil =>
      rw [htail, List.append_nil] at hsplit
      have hscan := scan_nul_end (text.takeWhile (fun b => b != 0)) post text.length 0 hno
        (by rw [hsplit]; simp)
      rw [hsplit] at hscan ⊢
      simp [hscan, hk, hne]
    | cons d t =>
      have hd : d = 0 := by
        have := List.head_dropWhile_not (fun b => b != 0) text (by simp [htail])
        simpa [htail] using this
      subst hd
      rw [htail] at hsplit
      have hlt : (text.takeWhile (fun b => b != 0)).length < text.length := by
        conv_rhs => rw [← hsplit]
        simp
      have hscan := scan_nul_found (text.takeWhile (fun b => b != 0)) (t ++ post) text.length 0
        hno (by omega)
      have hmem : text ++ post = text.takeWhile (fun b => b != 0) ++ 0 :: (t ++ post) := by
        conv_lhs => rw [← hsplit]
        simp
      rw [hmem]
      simp only [Nat.zero_add] at hscan
      simp [hscan, hk, hne]
  refine ⟨hmain, hno, by rw [hrem]; exact hlen, ?_, ?_⟩
  · intro hall
    rw [hmain]
    congr 1
    rw [List.takeWhile_eq_self_iff]
    intro x hx
    simpa using hall x hx
  · intro ctx' h0
    simp [parser_string_get, h0]

/-- Witness for C18: the cursor covers `ab`, NUL, `c` inside a larger buffer;
the string returned is `ab`. -/
theorem string_get_up_to_nul_witness :
    parser_string_get (fun _ => true) (some (cursor_ctx [120, 97, 98, 0, 99, 121] 1 4)) =
      .ok [97, 98] :=
  (string_get_up_to_nul (fun _ => true) (cursor_ctx [120, 97, 98, 0, 99, 121] 1 4)
    [120] [97, 98, 0, 99] [121] (fun _ => rfl) (by decide) (by decide)).1

/-! ## Lemmas: which `NULL` returns the later phases can take -/

theorem skip_space_error (stop : ParamNull) (s : List Nat) (n : Nat) (e : ParamNull)
    (h : skip_space stop s n = .error e) : e = stop ∨ e = .outOfBounds := by
  induction s generalizing n with
  | nil =>
    simp only [skip_space, Except.error.injEq] at h
    exact Or.inr h.symm
  | cons c s ih =>
    simp only [skip_space] at h
    split_ifs at h
    · simp only [Except.error.injEq] at h
      exact Or.inl h.symm
    · exact ih _ h

theorem skip_separator_error (q : Nat) (s : List Nat) (n : Nat) (e : ParamNull)
    (h : skip_separator q s n = .error e) : e = .outOfBounds ∨ e = .missingSeparator := by
  unfold skip_separator at h
  dsimp only at h
  repeat' split at h
  all_goals first
    | (simp at h; done)
    | (simp at h; subst h; simp)

theorem take_value_error (kmalloc : Nat → Bool) (q : Nat) (s : List Nat) (n : Nat)
    (e : ParamNull) (h : take_value kmalloc q s n = .error e) :
    e = .outOfBounds ∨ e = .endInQuotedValue ∨ e = .noMemory ∨ e = .missingSeparator := by
  unfold take_value at h
  dsimp only at h
  repeat' split at h
  all_goals first
    | (simp at h; done)
    | (simp at h; subst h; simp)
    | (rename_i he
       simp only [Except.error.injEq] at h
       subst h
       rcases skip_separator_error _ _ _ _ he with h1 | h1 <;> simp [h1])

/-- Once the name is stored, no later step reports it as too big. -/
theorem after_name_error (kmalloc : Nat → Bool) (s : List Nat) (n : Nat) :
    after_name kmalloc s n ≠ .error .nameTooBig := by
  intro h
  unfold after_name at h
  repeat' split at h
  all_goals first
    | (simp at h; done)
    | (rename_i he
       simp only [Except.error.injEq] at h
       subst h
       rcases skip_space_error _ _ _ _ he with h1 | h1 <;> simp at h1)
    | exact absurd (take_value_error _ _ _ _ _ h) (by simp)

theorem scan_name_namesize_le (s : List Nat) (n : Nat) (namesize : Int) (nam : List Nat)
    (s' : List Nat) (n' : Nat) (namesize' : Int) (nam' : List Nat)
    (h : scan_name s n namesize nam = .ok (s', n', namesize', nam')) :
    namesize' ≤ namesize := by
  induction s generalizing n namesize nam with
  | nil => simp [scan_name] at h
  | cons c s ih =>
    simp only [scan_name] at h
    split_ifs at h
    · simp only [Except.ok.injEq, Prod.mk.injEq] at h
      omega
    · have := ih _ _ _ h
      omega

/-- With a name capacity of zero or less no value is ever returned. -/
theorem param_scan_no_capacity (kmalloc : Nat → Bool) (s : List Nat) (n : Nat) (namesize : Int)
    (hns : namesize ≤ 0) (r : List Nat × List Nat × List Nat × Nat) :
    param_scan kmalloc s n namesize ≠ .ok r := by
  intro h
  unfold param_scan at h
  split_ifs at h
  split at h
  · simp at h
  · split_ifs at h
    split at h
    · simp at h
    · split at h
      · simp at h
      · rename_i s2 n2 ns2 stored hname
        have := scan_name_namesize_le _ _ _ _ _ _ _ _ hname
        rw [if_pos (by omega)] at h
        simp at h

/-! ## Theorems: name capacity and the separator after a quoted value -/

/-- C15: on a cursor that covers `N:...`, where `N` holds no `:` and the cursor
does not start with NUL, let `L` be the number of bytes of `N` after its leading
whitespace.  `parser_param_get` returns `NULL` as "name too big" exactly when
`L ≥ namesize`; so a name of `namesize - 1` bytes is not refused, and a
`namesize` of zero or less is always refused (with it no context at all yields a
value). -/
theorem name_capacity_boundary (kmalloc : Nat → Bool) (ctx : PARSER_CONTEXT)
    (pre N rest post : List Nat) (namesize : Int)
    (hN : ∀ x ∈ N, x ≠ 58) (hhead : N.head? ≠ some 0)
    (hcov : covers ctx pre (N ++ 58 :: rest) post) :
    ((parser_param_get kmalloc (some ctx) namesize).1 = .null .nameTooBig ↔
      namesize ≤ ((N.dropWhile isspace).length : Int)) ∧
    (namesize = ((N.dropWhile isspace).length : Int) + 1 →
      (parser_param_get kmalloc (some ctx) namesize).1 ≠ .null .nameTooBig) ∧
    (namesize ≤ 0 → (parser_param_get kmalloc (some ctx) namesize).1 = .null .nameTooBig) ∧
    (∀ ctx' : PARSER_CONTEXT, namesize ≤ 0 → ∀ nam value,
      (parser_param_get kmalloc (some ctx') namesize).1 ≠ .value nam value) := by
  have hmem : (N ++ 58 :: rest) ++ post = N ++ 58 :: (rest ++ post) := by simp
  have hlen : N.length < (N ++ 58 :: rest).length := by simp
  have hiff : (parser_param_get kmalloc (some ctx) namesize).1 = .null .nameTooBig ↔
      namesize ≤ ((N.dropWhile isspace).length : Int) := by
    rw [parser_param_get_of_covers kmalloc ctx pre _ post namesize hcov, hmem]
    constructor
    · intro h
      by_contra hle
      rw [param_scan_name kmalloc N _ _ namesize hN hhead hlen (by omega)] at h
      have hne := after_name_error kmalloc (58 :: (rest ++ post))
        ((N ++ 58 :: rest).length - N.length)
      cases hafter : after_name kmalloc (58 :: (rest ++ post))
          ((N ++ 58 :: rest).length - N.length) with
      | error e =>
        rw [hafter] at h hne
        simp only [ParamReturn.null.injEq] at h
        exact hne (by rw [h])
      | ok r =>
        rw [hafter] at h
        simp at h
    · intro hle
      rw [param_scan_name_too_long kmalloc N _ _ namesize hN hhead hlen hle]
  refine ⟨hiff, ?_, ?_, ?_⟩
  · intro heq h
    have := hiff.1 h
    omega
  · intro hle
    exact hiff.2 (by omega)
  · intro ctx' hle nam value h
    simp only [parser_param_get] at h
    split at h
    · simp at h
    · rename_i hok
      exact param_scan_no_capacity kmalloc _ _ namesize hle _ hok

/-- Witness for C15: `abc:1` with a capacity of 4 is taken (3 bytes fit). -/
theorem name_capacity_boundary_witness :
    ((parser_param_get (fun _ => true) (some (cursor_ctx [97, 98, 99, 58, 49] 0 5)) 4).1 =
        .null .nameTooBig ↔
      (4 : Int) ≤ ((([97, 98, 99] : List Nat).dropWhile isspace).length : Int)) ∧
    ((4 : Int) = ((([97, 98, 99] : List Nat).dropWhile isspace).length : Int) + 1 →
      (parser_param_get (fun _ => true) (some (cursor_ctx [97, 98, 99, 58, 49] 0 5)) 4).1 ≠
        .null .nameTooBig) ∧
    ((4 : Int) ≤ 0 →
      (parser_param_get (fun _ => true) (some (cursor_ctx [97, 98, 99, 58, 49] 0 5)) 4).1 =
        .null .nameTooBig) ∧
    (∀ ctx' : PARSER_CONTEXT, (4 : Int) ≤ 0 → ∀ nam value,
      (parser_param_get (fun _ => true) (some ctx') 4).1 ≠ .value nam value) :=
  name_capacity_boundary (fun _ => true) (cursor_ctx [97, 98, 99, 58, 49] 0 5)
    [] [97, 98, 99] [49] [] 4 (by decide) (by decide) (by decide)

theorem skip_space_break_all (ws r : List Nat) (hws : ∀ x ∈ ws, isspace x = true)
    (hne : ws ≠ []) : skip_space_break (ws ++ r) ws.length = some (r, 0) := by
  induction ws with
  | nil => exact absurd rfl hne
  | cons w ws ih =>
    have hw : isspace w = true := hws w (by simp)
    rw [List.cons_append, skip_space_break]
    cases ws with
    | nil => simp [hw, ulong_dec]
    | cons w' ws' =>
      have hd : ulong_dec (w :: w' :: ws').length = (w' :: ws').length := by
        simp [ulong_dec]
      simp only [hw, if_true, hd]
      rw [if_neg (by simp)]
      exact ih (fun x hx => hws x (by simp [hx])) (by simp)

theorem skip_space_break_stop (ws : List Nat) (c : Nat) (r : List Nat) (m : Nat)
    (hws : ∀ x ∈ ws, isspace x = true) (hc : isspace c = false) :
    skip_space_break (ws ++ c :: r) (ws.length + (m + 1)) = some (c :: r, m + 1) := by
  induction ws with
  | nil => simp [skip_space_break, hc]
  | cons w ws ih =>
    have hw : isspace w = true := hws w (by simp)
    have hd : ulong_dec ((w :: ws).length + (m + 1)) = ws.length + (m + 1) := by
      simp only [ulong_dec, List.length_cons]
      rw [if_neg (by omega)]
      omega
    rw [List.cons_append, skip_space_break]
    simp only [hw, if_true, hd]
    rw [if_neg (by omega)]
    exact ih (fun x hx => hws x (by simp [hx]))

/-- Lines 409-437 at a closing quote `q` that is followed by the bytes `T` up to
the end of the cursor. -/
theorem skip_separator_after_quote (q : Nat) (T post : List Nat) (hq : q ≠ 0) :
    skip_separator q (q :: (T ++ post)) (T.length + 1) =
      match T.dropWhile isspace with
      | [] => .ok (post, 0)
      | c :: t =>
        if c = 44 ∨ c = 59 then .ok (t ++ post, t.length)
        else if c ≠ 0 then .error .missingSeparator
        else .ok (c :: (t ++ post), t.length + 1) := by
  have hsplit : T.takeWhile isspace ++ T.dropWhile isspace = T :=
    List.takeWhile_append_dropWhile isspace T
  have hws : ∀ x ∈ T.takeWhile isspace, isspace x = true := fun x hx =>
    List.mem_takeWhile_imp hx
  have hd : ulong_dec (T.length + 1) = T.length := by simp [ulong_dec]
  unfold skip_separator
  simp only [gt_iff_lt, Nat.zero_lt_succ, if_true, ne_eq, hq, not_false_eq_true, hd]
  cases htail : T.dropWhile isspace with
  | nil =>
    rw [htail, List.append_nil] at hsplit
    by_cases hT : T = []
    · subst hT
      simp
    · have hpos : 0 < T.length := List.length_pos.2 hT
      have hbrk := skip_space_break_all T post (by rw [← hsplit]; exact hws) hT
      simp only [hpos, and_self, if_true, hbrk]
      simp
  | cons c t =>
    have hc : isspace c = false := by
      have := List.head_dropWhile_not isspace T (by simp [htail])
      simpa [htail] using this
    rw [htail] at hsplit
    have hlen : T.length = (T.takeWhile isspace).length + (t.length + 1) := by
      conv_lhs => rw [← hsplit]
      simp
    have hmem : T ++ post = T.takeWhile isspace ++ c :: (t ++ post) := by
      conv_lhs => rw [← hsplit]
      simp
    have hbrk := skip_space_break_stop (T.takeWhile isspace) c (t ++ post) t.length hws hc
    have hpos : 0 < T.length := by omega
    simp only [hpos, and_self, if_true]
    rw [hmem, hlen, hbrk]
    simp only [Nat.zero_lt_succ, if_true]
    by_cases hsep : c = 44 ∨ c = 59
    · simp [hsep, ulong_dec]
    · by_cases h0 : c = 0
      · simp [h0]
      · simp [hsep, h0]

/-- The quoted branch on a value `v` that is closed by `q` and followed by the
bytes `T` up to the end of the cursor. -/
theorem take_value_quoted_closed (kmalloc : Nat → Bool) (q : Nat) (v T post : List Nat)
    (hk : ∀ k, kmalloc k = true) (hq : q ≠ 0) (hv : ∀ x ∈ v, x ≠ q ∧ x ≠ 0) :
    take_value kmalloc q (v ++ q :: (T ++ post)) (v.length + 1 + T.length) =
      match T.dropWhile isspace with
      | [] => .ok (v, post, 0)
      | c :: t =>
        if c = 44 ∨ c = 59 then .ok (v, t ++ post, t.length)
        else if c ≠ 0 then .error .missingSeparator
        else .ok (v, c :: (t ++ post), t.length + 1) := by
  have hscan := scan_value_quoted_found q v (T ++ post) (v.length + 1 + T.length) 0 hq hv
    (by omega)
  simp only [Nat.zero_add] at hscan
  have hsub : v.length + 1 + T.length - v.length = T.length + 1 := by omega
  simp only [take_value, hscan, hk, hq, List.drop_left,
    ulong_sub_le _ _ (show v.length ≤ v.length + 1 + T.length by omega), hsub,
    skip_separator_after_quote q T post hq]
  cases T.dropWhile isspace with
  | nil => simp
  | cons c t =>
    by_cases hsep : c = 44 ∨ c = 59
    · simp [hsep]
    · by_cases h0 : c = 0
      · simp [h0]
      · simp [hsep, h0]

/-- One call on a cursor that covers `N: ws q v q T`: what is returned, by what
follows the closing quote. -/
theorem param_get_quoted_closed (kmalloc : Nat → Bool) (ctx : PARSER_CONTEXT)
    (pre N ws v T post : List Nat) (q : Nat) (namesize : Int) (hk : ∀ k, kmalloc k = true)
    (hN : ∀ x ∈ N, x ≠ 58) (hhead : N.head? ≠ some 0)
    (hfit : ((N.dropWhile isspace).length : Int) < namesize)
    (hws : ∀ x ∈ ws, isspace x = true) (hq : q = 39 ∨ q = 34) (hv : ∀ x ∈ v, x ≠ q ∧ x ≠ 0)
    (hcov : covers ctx pre (N ++ 58 :: (ws ++ q :: (v ++ q :: T))) post) :
    parser_param_get kmalloc (some ctx) namesize =
      match T.dropWhile isspace with
      | [] =>
        (.value (finish_name ((N.dropWhile isspace).map toupper)) v, some (advance ctx [] post))
      | c :: t =>
        if c = 44 ∨ c = 59 then
          (.value (finish_name ((N.dropWhile isspace).map toupper)) v, some (advance ctx t post))
        else if c ≠ 0 then (.null .missingSeparator, some ctx)
        else
          (.value (finish_name ((N.dropWhile isspace).map toupper)) v,
            some (advance ctx (c :: t) post)) := by
  have hq0 : q ≠ 0 := by omega
  have hmem : (v ++ q :: T) ++ post = v ++ q :: (T ++ post) := by simp
  have hlen : (v ++ q :: T).length = v.length + 1 + T.length := by
    simp only [List.length_append, List.length_cons]; omega
  rw [parser_param_get_of_covers kmalloc ctx pre _ post namesize hcov,
    param_scan_quoted kmalloc N ws q (v ++ q :: T) post namesize hN hhead hfit hws hq,
    if_neg (by rw [hlen]; omega), hmem, hlen,
    take_value_quoted_closed kmalloc q v T post hk hq0 hv]
  cases T.dropWhile isspace with
  | nil => rfl
  | cons c t =>
    by_cases hsep : c = 44 ∨ c = 59
    · simp only [hsep, if_true]
      rfl
    · by_cases h0 : c = 0
      · subst h0
        simp only [hsep, if_false, ne_eq, not_true_eq_false]
        rfl
      · simp only [hsep, if_false, ne_eq, h0, not_false_eq_true, if_true]

/-- C16: on a cursor that covers `N: ws q v q T` with a closed quoted value `v`
(name part accepted, allocations succeeding), `parser_param_get` returns `NULL`
as "missing separator" exactly when the first non-whitespace byte of `T` exists
and is none of `,`, `;` and NUL.  Otherwise the pair is returned: with the
cursor emptied when `T` is whitespace only, with the `,` or `;` consumed, or
with the cursor left at the NUL. -/
theorem missing_separator_iff (kmalloc : Nat → Bool) (ctx : PARSER_CONTEXT)
    (pre N ws v T post : List Nat) (q : Nat) (namesize : Int) (hk : ∀ k, kmalloc k = true)
    (hN : ∀ x ∈ N, x ≠ 58) (hhead : N.head? ≠ some 0)
    (hfit : ((N.dropWhile isspace).length : Int) < namesize)
    (hws : ∀ x ∈ ws, isspace x = true) (hq : q = 39 ∨ q = 34) (hv : ∀ x ∈ v, x ≠ q ∧ x ≠ 0)
    (hcov : covers ctx pre (N ++ 58 :: (ws ++ q :: (v ++ q :: T))) post) :
    (parser_param_get kmalloc (some ctx) namesize = (.null .missingSeparator, some ctx) ↔
      ∃ c t, T.dropWhile isspace = c :: t ∧ c ≠ 44 ∧ c ≠ 59 ∧ c ≠ 0) ∧
    (T.dropWhile isspace = [] →
      parser_param_get kmalloc (some ctx) namesize =
        (.value (finish_name ((N.dropWhile isspace).map toupper)) v,
          some (advance ctx [] post))) ∧
    (∀ c t, T.dropWhile isspace = c :: t → c = 44 ∨ c = 59 →
      parser_param_get kmalloc (some ctx) namesize =
        (.value (finish_name ((N.dropWhile isspace).map toupper)) v,
          some (advance ctx t post))) ∧
    (∀ t, T.dropWhile isspace = 0 :: t →
      parser_param_get kmalloc (some ctx) namesize =
        (.value (finish_name ((N.dropWhile isspace).map toupper)) v,
          some (advance ctx (0 :: t) post))) := by
  have hres := param_get_quoted_closed kmalloc ctx pre N ws v T post q namesize hk hN hhead
    hfit hws hq hv hcov
  refine ⟨?_, ?_, ?_, ?_⟩
  · rw [hres]
    cases T.dropWhile isspace with
    | nil => simp
    | cons c t =>
      by_cases hsep : c = 44 ∨ c = 59
      · simp only [hsep, if_true]
        constructor
        · intro h; simp at h
        · rintro ⟨c', t', h, h1, h2, -⟩
          simp only [List.cons.injEq] at h
          omega
      · by_cases h0 : c = 0
        · subst h0
          simp only [hsep, if_false, ne_eq, not_true_eq_false]
          constructor
          · intro h; simp at h
          · rintro ⟨c', t', h, -, -, h3⟩
            simp only [List.cons.injEq] at h
            omega
        · simp only [hsep, if_false, ne_eq, h0, not_false_eq_true, if_true, true_iff]
          exact ⟨c, t, rfl, by omega, by omega, h0⟩
  · intro h
    rw [hres, h]
  · intro c t h hsep
    rw [hres, h]
    simp only [hsep, if_true]
  · intro t h
    rw [hres, h]
    simp

/-- Witness for C16: `K:'v' x` fails for want of a separator. -/
theorem missing_separator_iff_witness :
    parser_param_get (fun _ => true) (some (cursor_ctx [75, 58, 39, 118, 39, 32, 120] 0 7)) 8 =
      (.null .missingSeparator, some (cursor_ctx [75, 58, 39, 118, 39, 32, 120] 0 7)) :=
  (missing_separator_iff (fun _ => true) (cursor_ctx [75, 58, 39, 118, 39, 32, 120] 0 7)
    [] [75] [] [118] [32, 120] [] 39 8 (fun _ => rfl) (by decide) (by decide) (by decide)
    (by decide) (by decide) (by decide) (by decide)).1.2 ⟨120, [], by decide, by decide,
      by decide, by decide⟩

/-! ## Theorems: the read after a `:` that ends the cursor -/

/-- C14 (the code departs from it): two contexts whose cursors both hold the
four bytes `key:`.  In the buffer `key:x,y` the call returns `NULL` as
"unexpected end of input looking for value".  In the buffer `key: x,y` the loop
of line 345 reads the space that follows the cursor, `nscan--` wraps from 0, and
the call returns the value `x` taken from outside the cursor, leaving
`bytes_remaining` at `2^64 - 3`. -/
theorem value_read_beyond_cursor :
    (cursor_ctx [107, 101, 121, 58, 120, 44, 121] 0 4).at_curr.take 4 =
      (cursor_ctx [107, 101, 121, 58, 32, 120, 44, 121] 0 4).at_curr.take 4 ∧
    parser_param_get (fun _ => true) (some (cursor_ctx [107, 101, 121, 58, 120, 44, 121] 0 4)) 8 =
      (.null .endBeforeValue, some (cursor_ctx [107, 101, 121, 58, 120, 44, 121] 0 4)) ∧
    parser_param_get (fun _ => true)
        (some (cursor_ctx [107, 101, 121, 58, 32, 120, 44, 121] 0 4)) 8 =
      (.value [75, 69, 89] [120],
        some (cursor_ctx [107, 101, 121, 58, 32, 120, 44, 121] 7 18446744073709551613)) := by
  refine ⟨by decide, by rfl, by rfl⟩

/-- C20 (the code departs from it): on the cursor `key:` of length 4 in the
buffer `key: x,y` a pair is returned and the remaining length grows from 4 to
`2^64 - 3`; on the cursor `key:` of length 4 in the buffer
`key: a:1,b:2,c:3,d:4,e:5,` five calls return five pairs. -/
theorem cursor_grows_past_its_end :
    (parser_param_get (fun _ => true)
        (some (cursor_ctx [107, 101, 121, 58, 32, 120, 44, 121] 0 4)) 8).1 =
      .value [75, 69, 89] [120] ∧
    ((parser_param_get (fun _ => true)
        (some (cursor_ctx [107, 101, 121, 58, 32, 120, 44, 121] 0 4)) 8).2.map
          PARSER_CONTEXT.bytes_remaining) = some 18446744073709551613 ∧
    (4 : Nat) < 18446744073709551613 ∧
    param_get_calls (fun _ => true) 8 5
        (some (cursor_ctx [107, 101, 121, 58, 32, 97, 58, 49, 44, 98, 58, 50, 44, 99, 58, 51,
          44, 100, 58, 52, 44, 101, 58, 53, 44] 0 4)) =
      [.value [75, 69, 89] [97, 58, 49], .value [66] [50], .value [67] [51],
        .value [68] [52], .value [69] [53]] := by
  refine ⟨by rfl, by rfl, by decide, by rfl⟩

/-! ## Theorems: the throttle after a failed create, the retry flag over the inputs -/

/-- C3 (the code departs from it): from a counter of 0 with no live context, a
structured create of a 64-byte payload whose header announces 65 bytes fails and
leaves the counter at `2^64 - 64`.  A byte-stream create of 10 bytes is then
refused by the throttle although nothing is reserved, and one of 64 bytes is
admitted although counter + 64 exceeds the ceiling.  Without any wrap: after a
byte-stream create of 100 bytes and the same failed create the counter is 36
with 100 bytes live, and a create of 131000 bytes is admitted although
100 + 131000 exceeds the ceiling. -/
theorem throttle_misjudges_after_failed_create :
    (parser_init (demo_env (demo_header 65 64)) demo_layout 0 0 64 true none).rc =
      .error .LengthMismatch ∧
    (parser_init (demo_env (demo_header 65 64)) demo_layout 0 0 64 true none).buffered =
      18446744073709551552 ∧
    (parser_init_byteStream (demo_env (demo_header 65 64)) demo_layout
      (parser_init (demo_env (demo_header 65 64)) demo_layout 0 0 64 true none).buffered
      0 10 true none).rc = .error .Throttled ∧
    0 + 10 ≤ MAX_CONTROLVM_PAYLOAD_BYTES ∧
    (parser_init_byteStream (demo_env (demo_header 65 64)) demo_layout
      (parser_init (demo_env (demo_header 65 64)) demo_layout 0 0 64 true none).buffered
      0 64 true none).ctx.isSome = true ∧
    18446744073709551552 + 64 > MAX_CONTROLVM_PAYLOAD_BYTES ∧
    (Sys.run (demo_env (demo_header 65 64)) demo_layout { buffered := 0, live := [] }
      [.create 0 100 true false, .create 0 64 true true]).buffered = 36 ∧
    (Sys.run (demo_env (demo_header 65 64)) demo_layout { buffered := 0, live := [] }
      [.create 0 100 true false, .create 0 64 true true]).live_bytes = 100 ∧
    (parser_init_byteStream (demo_env (demo_header 65 64)) demo_layout 36 0 131000 true
      none).ctx.isSome = true ∧
    100 + 131000 > MAX_CONTROLVM_PAYLOAD_BYTES := by
  refine ⟨by rfl, by rfl, by rfl, by decide, by rfl, by decide, by rfl, by rfl, by rfl,
    by decide⟩

/-- Past the throttle test, with the buffer allocated and large enough, what
`parser_init_guts` returns is decided by the fetch of the payload and the
header checks. -/
theorem parser_init_guts_fetched (env : Env) (lay : HeaderLayout)
    (buffered addr bytes : Nat) (isLocal hdr : Bool) (tryAgain : Option Bool)
    (hroom : ulong_add buffered bytes ≤ MAX_CONTROLVM_PAYLOAD_BYTES)
    (halloc : env.kzalloc (alloc_request bytes hdr) = true)
    (hfits : alloc_need bytes hdr ≤ alloc_request bytes hdr) :
    parser_init_guts env lay buffered addr bytes isLocal hdr tryAgain =
      match fetch_payload env addr bytes isLocal with
      | .error e =>
        init_fail buffered
          { allocbytes := alloc_request bytes hdr, param_bytes := bytes, curr := none,
            bytes_remaining := 0, byte_stream := false,
            data := List.replicate (bytes + if hdr = true then 0 else 1) 0 }
          e (tryAgain.map (fun _ => false))
      | .ok src =>
        init_validate lay buffered bytes hdr
          { allocbytes := alloc_request bytes hdr, param_bytes := bytes, curr := none,
            bytes_remaining := 0, byte_stream := false,
            data := copy_in bytes src ++ List.replicate (if hdr = true then 0 else 1) 0 }
          (tryAgain.map (fun _ => false)) := by
  simp only [alloc_request, alloc_need] at halloc hfits ⊢
  simp only [parser_init_guts]
  rw [if_neg (by omega)]
  simp only [halloc, Bool.not_true, Bool.false_eq_true, if_false]
  rw [if_neg (by omega)]

theorem parser_init_guts_throttled (env : Env) (lay : HeaderLayout)
    (buffered addr bytes : Nat) (isLocal hdr : Bool) (tryAgain : Option Bool)
    (hover : ulong_add buffered bytes > MAX_CONTROLVM_PAYLOAD_BYTES) :
    parser_init_guts env lay buffered addr bytes isLocal hdr tryAgain =
      { rc := .error .Throttled, tryAgain := tryAgain.map (fun _ => true),
        buffered := buffered } := by
  simp [parser_init_guts, hover]

theorem parser_init_guts_no_memory (env : Env) (lay : HeaderLayout)
    (buffered addr bytes : Nat) (isLocal hdr : Bool) (tryAgain : Option Bool)
    (hroom : ulong_add buffered bytes ≤ MAX_CONTROLVM_PAYLOAD_BYTES)
    (hnone : env.kzalloc (alloc_request bytes hdr) = false) :
    parser_init_guts env lay buffered addr bytes isLocal hdr tryAgain =
      { rc := .error .AllocationFailed, tryAgain := tryAgain.map (fun _ => true),
        buffered := buffered } := by
  simp only [alloc_request, alloc_need] at hnone
  simp only [parser_init_guts]
  rw [if_neg (by omega)]
  simp only [hnone, Bool.not_false, if_true]

theorem parser_init_guts_allocated_flag (env : Env) (lay : HeaderLayout)
    (buffered addr bytes : Nat) (isLocal hdr : Bool) (flag : Bool)
    (hroom : ulong_add buffered bytes ≤ MAX_CONTROLVM_PAYLOAD_BYTES)
    (halloc : env.kzalloc (alloc_request bytes hdr) = true) :
    (parser_init_guts env lay buffered addr bytes isLocal hdr (some flag)).tryAgain =
      some false := by
  by_cases hfits : alloc_need bytes hdr ≤ alloc_request bytes hdr
  · rw [parser_init_guts_fetched env lay buffered addr bytes isLocal hdr (some flag) hroom
      halloc hfits]
    cases fetch_payload env addr bytes isLocal with
    | error e => rfl
    | ok src => exact (init_validate_tryAgain _ _ _ _ _ _).1
  · simp only [alloc_request, alloc_need] at halloc hfits
    simp only [parser_init_guts]
    rw [if_neg (by omega)]
    simp only [halloc, Bool.not_true, Bool.false_eq_true, if_false]
    rw [if_pos (by omega)]
    rfl

/-- The three header checks of lines 112-134, in their order. -/
theorem init_validate_rejects (lay : HeaderLayout) (buffered bytes : Nat)
    (ctx : PARSER_CONTEXT) (tryAgain : Option Bool) :
    ((lay.cast ctx.data).TotalLength ≠ bytes →
      (init_validate lay buffered bytes true ctx tryAgain).rc = .error .LengthMismatch) ∧
    ((lay.cast ctx.data).TotalLength = bytes →
      (lay.cast ctx.data).TotalLength < (lay.cast ctx.data).HeaderLength →
      (init_validate lay buffered bytes true ctx tryAgain).rc = .error .HeaderExceedsTotal) ∧
    ((lay.cast ctx.data).TotalLength = bytes →
      (lay.cast ctx.data).HeaderLength ≤ (lay.cast ctx.data).TotalLength →
      (lay.cast ctx.data).HeaderLength < lay.size →
      (init_validate lay buffered bytes true ctx tryAgain).rc = .error .HeaderTooSmall) := by
  refine ⟨?_, ?_, ?_⟩
  · intro h1
    unfold init_validate
    simp only [Bool.not_true, Bool.false_eq_true, if_false]
    rw [if_pos h1]
    rfl
  · intro h1 h2
    unfold init_validate
    simp only [Bool.not_true, Bool.false_eq_true, if_false]
    rw [if_neg (by simpa using h1), if_pos h2]
    rfl
  · intro h1 h2 h3
    unfold init_validate
    simp only [Bool.not_true, Bool.false_eq_true, if_false]
    rw [if_neg (by simpa using h1), if_neg (by omega), if_pos h3]
    rfl

/-- C13: for a call of `parser_init_guts` that is given a `tryAgain` pointer, the
flag is `TRUE` on return exactly when the counter plus `bytes` exceeds the
ceiling (the call is refused by the throttle) or `kzalloc` returns `NULL` (the
call fails for want of memory).  It is `FALSE` on success, and, once the buffer
is allocated, on a local address above the physical-memory bound, on a memory
region that cannot be created or read, and on each of the three header
checks. -/
theorem retry_flag_classification (env : Env) (lay : HeaderLayout)
    (buffered addr bytes : Nat) (isLocal hdr : Bool) (flag : Bool) :
    ((parser_init_guts env lay buffered addr bytes isLocal hdr (some flag)).tryAgain = some true ↔
      (ulong_add buffered bytes > MAX_CONTROLVM_PAYLOAD_BYTES ∨
        env.kzalloc (alloc_request bytes hdr) = false)) ∧
    (ulong_add buffered bytes > MAX_CONTROLVM_PAYLOAD_BYTES →
      (parser_init_guts env lay buffered addr bytes isLocal hdr (some flag)).rc =
          .error .Throttled ∧
        (parser_init_guts env lay buffered addr bytes isLocal hdr (some flag)).tryAgain =
          some true) ∧
    (ulong_add buffered bytes ≤ MAX_CONTROLVM_PAYLOAD_BYTES →
      env.kzalloc (alloc_request bytes hdr) = false →
      (parser_init_guts env lay buffered addr bytes isLocal hdr (some flag)).rc =
          .error .AllocationFailed ∧
        (parser_init_guts env lay buffered addr bytes isLocal hdr (some flag)).tryAgain =
          some true) ∧
    (∀ c, (parser_init_guts env lay buffered addr bytes isLocal hdr (some flag)).rc = .ok c →
      (parser_init_guts env lay buffered addr bytes isLocal hdr (some flag)).tryAgain =
        some false) ∧
    (ulong_add buffered bytes ≤ MAX_CONTROLVM_PAYLOAD_BYTES →
      env.kzalloc (alloc_request bytes hdr) = true →
      alloc_need bytes hdr ≤ alloc_request bytes hdr →
      (isLocal = true → addr > env.high_memory →
        (parser_init_guts env lay buffered addr bytes isLocal hdr (some flag)).rc =
            .error .InvalidAddress ∧
          (parser_init_guts env lay buffered addr bytes isLocal hdr (some flag)).tryAgain =
            some false) ∧
      (isLocal = false → env.memregion_create addr bytes = false →
        (parser_init_guts env lay buffered addr bytes isLocal hdr (some flag)).rc =
            .error .TransportError ∧
          (parser_init_guts env lay buffered addr bytes isLocal hdr (some flag)).tryAgain =
            some false) ∧
      (isLocal = false → env.memregion_create addr bytes = true →
        env.memregion_read addr bytes = none →
        (parser_init_guts env lay buffered addr bytes isLocal hdr (some flag)).rc =
            .error .TransportError ∧
          (parser_init_guts env lay buffered addr bytes isLocal hdr (some flag)).tryAgain =
            some false) ∧
      (∀ src, fetch_payload env addr bytes isLocal = .ok src → hdr = true →
        ((lay.cast (copy_in bytes src)).TotalLength ≠ bytes →
          (parser_init_guts env lay buffered addr bytes isLocal hdr (some flag)).rc =
              .error .LengthMismatch ∧
            (parser_init_guts env lay buffered addr bytes isLocal hdr (some flag)).tryAgain =
              some false) ∧
        ((lay.cast (copy_in bytes src)).TotalLength = bytes →
          (lay.cast (copy_in bytes src)).TotalLength <
            (lay.cast (copy_in bytes src)).HeaderLength →
          (parser_init_guts env lay buffered addr bytes isLocal hdr (some flag)).rc =
              .error .HeaderExceedsTotal ∧
            (parser_init_guts env lay buffered addr bytes isLocal hdr (some flag)).tryAgain =
              some false) ∧
        ((lay.cast (copy_in bytes src)).TotalLength = bytes →
          (lay.cast (copy_in bytes src)).HeaderLength ≤
            (lay.cast (copy_in bytes src)).TotalLength →
          (lay.cast (copy_in bytes src)).HeaderLength < lay.size →
          (parser_init_guts env lay buffered addr bytes isLocal hdr (some flag)).rc =
              .error .HeaderTooSmall ∧
            (parser_init_guts env lay buffered addr bytes isLocal hdr (some flag)).tryAgain =
              some false))) := by
  refine ⟨?_, ?_, ?_, ?_, ?_⟩
  · by_cases hover : ulong_add buffered bytes > MAX_CONTROLVM_PAYLOAD_BYTES
    · rw [parser_init_guts_throttled _ _ _ _ _ _ _ _ hover]
      simp [hover]
    · cases hk : env.kzalloc (alloc_request bytes hdr) with
      | false =>
        rw [parser_init_guts_no_memory _ _ _ _ _ _ _ _ (by omega) hk]
        simp
      | true =>
        rw [parser_init_guts_allocated_flag _ _ _ _ _ _ _ _ (by omega) hk]
        simp [hover]
  · intro hover
    rw [parser_init_guts_throttled _ _ _ _ _ _ _ _ hover]
    exact ⟨rfl, rfl⟩
  · intro hroom hk
    rw [parser_init_guts_no_memory _ _ _ _ _ _ _ _ hroom hk]
    exact ⟨rfl, rfl⟩
  · intro c hok
    apply (retry_flag_by_exit env lay buffered addr bytes isLocal hdr flag).2
    rw [hok]
    simp
  · intro hroom hk hfits
    have hflag := parser_init_guts_allocated_flag env lay buffered addr bytes isLocal hdr flag
      hroom hk
    have hshape := parser_init_guts_fetched env lay buffered addr bytes isLocal hdr (some flag)
      hroom hk hfits
    refine ⟨?_, ?_, ?_, ?_⟩
    · intro hl haddr
      refine ⟨?_, hflag⟩
      rw [hshape]
      simp [fetch_payload, hl, haddr, init_fail]
    · intro hl hcreate
      refine ⟨?_, hflag⟩
      rw [hshape]
      simp [fetch_payload, hl, hcreate, init_fail]
    · intro hl hcreate hread
      refine ⟨?_, hflag⟩
      rw [hshape]
      simp [fetch_payload, hl, hcreate, hread, init_fail]
    · intro src hsrc hhdr
      subst hhdr
      have hrej := init_validate_rejects lay buffered bytes
        { allocbytes := alloc_request bytes true, param_bytes := bytes, curr := none,
          bytes_remaining := 0, byte_stream := false, data := copy_in bytes src }
        (some false)
      have hguts : parser_init_guts env lay buffered addr bytes isLocal true (some flag) =
          init_validate lay buffered bytes true
            { allocbytes := alloc_request bytes true, param_bytes := bytes, curr := none,
              bytes_remaining := 0, byte_stream := false, data := copy_in bytes src }
            (some false) := by
        rw [hshape, hsrc]
        simp
      rw [hguts] at hflag ⊢
      exact ⟨fun h1 => ⟨hrej.1 h1, hflag⟩, fun h1 h2 => ⟨hrej.2.1 h1 h2, hflag⟩,
        fun h1 h2 h3 => ⟨hrej.2.2 h1 h2 h3, hflag⟩⟩

/-- Witness for C13: with `kzalloc` returning `NULL` the call fails for want of
memory and the flag, `FALSE` on entry, is `TRUE` on return; with the same
payload and memory available, a header that announces 65 of 64 bytes fails the
length check and the flag stays `FALSE`. -/
theorem retry_flag_classification_witness :
    ((parser_init_guts (demo_env_no_memory (demo_header 65 64)) demo_layout 0 0 64 true true
        (some false)).rc = .error .AllocationFailed ∧
      (parser_init_guts (demo_env_no_memory (demo_header 65 64)) demo_layout 0 0 64 true true
        (some false)).tryAgain = some true) ∧
    ((parser_init_guts (demo_env (demo_header 65 64)) demo_layout 0 0 64 true true
        (some true)).rc = .error .LengthMismatch ∧
      (parser_init_guts (demo_env (demo_header 65 64)) demo_layout 0 0 64 true true
        (some true)).tryAgain = some false) :=
  ⟨(retry_flag_classification (demo_env_no_memory (demo_header 65 64)) demo_layout 0 0 64 true
      true false).2.2.1 (by decide) (by rfl),
    ((retry_flag_classification (demo_env (demo_header 65 64)) demo_layout 0 0 64 true
      true true).2.2.2.2 (by decide) (by rfl) (by decide)).2.2.2 (demo_header 65 64) (by rfl)
        rfl |>.1 (by decide)⟩

end Visorchipset
